import Mathlib

/-!
Verification development for the AudioMoth-Utils toolkit.

The definitions below are shallow embeddings of the JavaScript sources
(`expander.js`, `splitter.js`, `downsampler.js`, `aligner.js`, `syncer.js`,
`guanoHandler.js`).  Machine numbers are modelled as `Nat`/`Int` (with the
32-bit wrap of the JavaScript shift operator made explicit) and the
floating-point quantities of the sync planner as exact rationals; JavaScript
strings are modelled as their UTF-8 byte sequences.  Loops are embedded as
fuel-based recursions whose fuel provably suffices.
-/

set_option maxRecDepth 4000

namespace Expander

/-- JavaScript evaluates `1 << i` on 32-bit signed integers, so the result is
`2 ^ i` for `i < 31` and `-2 ^ 31` for `i = 31`.  This definition reproduces
that semantics exactly (shift count reduced mod 32, result taken as a two's
complement 32-bit value). -/
def jsShl1 (i : Nat) : Int :=
  let v : Nat := (1 <<< (i % 32)) % 2 ^ 32
  if v < 2 ^ 31 then (v : Int) else (v : Int) - 2 ^ 32

/-- First loop of `readEncodedBlock` (expander.js lines 76-90): fold over the
32 leading 16-bit samples, adding `1 << i` when the sample is `1`, failing
(the JavaScript `return 0`) when the sample is neither `1` nor `-1`.
`block i` is the value `buffer.readInt16LE(2 * i)`. -/
def readEncodedBits (block : Nat → Int) : Nat → Nat → Int → Option Int
  | _, 0, acc => some acc
  | i, r + 1, acc =>
    if block i = 1 then readEncodedBits block (i + 1) r (acc + jsShl1 i)
    else if block i ≠ -1 then none
    else readEncodedBits block (i + 1) r acc

/-- Second loop of `readEncodedBlock` (expander.js lines 92-102): check that
samples `i, i+1, ..., i+r-1` are all zero. -/
def allZeroFrom (block : Nat → Int) : Nat → Nat → Bool
  | _, 0 => true
  | i, r + 1 =>
    if block i ≠ 0 then false else allZeroFrom block (i + 1) r

/-- Embedding of `readEncodedBlock` (expander.js lines 70-106) for a full
512-byte block: decode the 32 leading samples, then require the remaining
224 samples to be zero; any violation yields 0. -/
def readEncodedBlock (block : Nat → Int) : Int :=
  match readEncodedBits block 0 32 0 with
  | none => 0
  | some numberOfBlocks => if allZeroFrom block 32 224 then numberOfBlocks else 0

/-- Embedding of `isFullOfZeros` (expander.js lines 52-66); `length` is in
bytes and the loop inspects `length / 2` 16-bit samples. -/
def isFullOfZeros (block : Nat → Int) (length : Nat) : Bool :=
  allZeroFrom block 0 (length / 2)

/-- Segment classification used by the expander file summary. -/
inductive SegType
  | AUDIO
  | SILENT
deriving DecidableEq, Repr, Inhabited

/-- Classification of a full 512-byte window in the segmentation loop of
`expand` (expander.js lines 483-499): a positive decoded count makes the
window SILENT; otherwise it is SILENT exactly when it lies in the first or
last segment and is entirely zero, and AUDIO in every other case. -/
def classifyFullBlock (firstOrLastSegment : Bool) (block : Nat → Int) : SegType :=
  if readEncodedBlock block > 0 then SegType.SILENT
  else if firstOrLastSegment && isFullOfZeros block 512 then SegType.SILENT
  else SegType.AUDIO

/-- Hypothesis of the silent-run sentinel claim: every one of the 32 leading
samples is `+1` or `-1`, and every remaining sample of the block is zero. -/
def validSentinel (block : Nat → Int) : Bool :=
  ((List.range 32).all fun i => block i == 1 || block i == -1) &&
  ((List.range 224).all fun i => block (32 + i) == 0)

/-- Count actually produced by the decoder on a valid sentinel: bit `i` of
the sum is contributed through the JavaScript 32-bit shift, so sample 31
contributes `-2 ^ 31` rather than `2 ^ 31`. -/
def sentinelCount (block : Nat → Int) : Int :=
  ((List.range 32).map fun i => if block i = 1 then jsShl1 i else 0).sum

/-- Count the specification text ascribes to a valid sentinel: bit `i` is set
exactly when sample `i` equals `+1`. -/
def claimedSentinelCount (block : Nat → Int) : Int :=
  ((List.range 32).map fun i => if block i = 1 then (2 ^ i : Int) else 0).sum

/-- Valid sentinel whose only `+1` sample is sample 31. -/
def blockTop : Nat → Int := fun i => if i = 31 then 1 else if i < 32 then -1 else 0

/-- Block consisting entirely of zero samples. -/
def zeroBlock : Nat → Int := fun _ => 0

/-- Valid sentinel whose only `+1` sample is sample 0 (decodes to 1). -/
def blockOne : Nat → Int := fun i => if i < 32 then (if i = 0 then 1 else -1) else 0

theorem readEncodedBits_of_valid (block : Nat → Int) :
    ∀ (r i : Nat) (acc : Int),
      (∀ j, j < r → block (i + j) = 1 ∨ block (i + j) = -1) →
      readEncodedBits block i r acc =
        some (acc + ((List.range r).map fun j => if block (i + j) = 1 then jsShl1 (i + j) else 0).sum) := by
  intro r
  induction r with
  | zero => intro i acc _; simp [readEncodedBits]
  | succ r ih =>
    intro i acc h
    have h0 : block (i + 0) = 1 ∨ block (i + 0) = -1 := h 0 (Nat.succ_pos r)
    rw [List.range_succ_eq_map]
    simp only [List.map_cons, List.map_map, List.sum_cons]
    have htail : ∀ j, j < r → block (i + 1 + j) = 1 ∨ block (i + 1 + j) = -1 := by
      intro j hj
      have := h (j + 1) (Nat.succ_lt_succ hj)
      simpa [Nat.add_comm, Nat.add_assoc, Nat.add_left_comm] using this
    have hsum :
        ((List.range r).map fun j => if block (i + 1 + j) = 1 then jsShl1 (i + 1 + j) else 0) =
        ((List.range r).map ((fun j => if block (i + j) = 1 then jsShl1 (i + j) else 0) ∘ (· + 1))) := by
      apply List.map_congr_left
      intro j _
      simp [Function.comp, Nat.add_comm, Nat.add_assoc, Nat.add_left_comm]
    rcases h0 with h1 | hm1
    · simp only [Nat.add_zero] at h1
      rw [readEncodedBits, if_pos h1, ih (i + 1) (acc + jsShl1 i) htail, hsum]
      simp [h1, add_assoc, add_comm, add_left_comm]
    · simp only [Nat.add_zero] at hm1
      have hne : ¬ block i = 1 := by rw [hm1]; decide
      rw [readEncodedBits, if_neg hne, if_neg (by simp [hm1]), ih (i + 1) acc htail, hsum]
      simp [hne]

theorem readEncodedBits_none (block : Nat → Int) :
    ∀ (r i : Nat) (acc : Int) (j : Nat), j < r →
      ¬ block (i + j) = 1 → ¬ block (i + j) = -1 →
      (∀ k, k < j → block (i + k) = 1 ∨ block (i + k) = -1) →
      readEncodedBits block i r acc = none := by
  intro r
  induction r with
  | zero => intro i acc j hj; omega
  | succ r ih =>
    intro i acc j hj h1 hm1 hgood
    match j with
    | 0 =>
      simp only [Nat.add_zero] at h1 hm1
      rw [readEncodedBits, if_neg h1, if_pos hm1]
    | j + 1 =>
      have h0 : block (i + 0) = 1 ∨ block (i + 0) = -1 := hgood 0 (Nat.succ_pos j)
      simp only [Nat.add_zero] at h0
      have hshift1 : ¬ block (i + 1 + j) = 1 := by
        have : i + 1 + j = i + (j + 1) := by omega
        rw [this]; exact h1
      have hshiftm1 : ¬ block (i + 1 + j) = -1 := by
        have : i + 1 + j = i + (j + 1) := by omega
        rw [this]; exact hm1
      have hshiftgood : ∀ k, k < j → block (i + 1 + k) = 1 ∨ block (i + 1 + k) = -1 := by
        intro k hk
        have : i + 1 + k = i + (k + 1) := by omega
        rw [this]
        exact hgood (k + 1) (by omega)
      rcases h0 with hone | hmone
      · rw [readEncodedBits, if_pos hone]
        exact ih (i + 1) (acc + jsShl1 i) j (by omega) hshift1 hshiftm1 hshiftgood
      · have hne : ¬ block i = 1 := by rw [hmone]; decide
        rw [readEncodedBits, if_neg hne, if_neg (by simp [hmone])]
        exact ih (i + 1) acc j (by omega) hshift1 hshiftm1 hshiftgood

theorem allZeroFrom_eq_true (block : Nat → Int) :
    ∀ (r i : Nat), (∀ j, j < r → block (i + j) = 0) → allZeroFrom block i r = true := by
  intro r
  induction r with
  | zero => intro i _; rfl
  | succ r ih =>
    intro i h
    have h0 : block i = 0 := by have := h 0 (Nat.succ_pos r); simpa using this
    rw [allZeroFrom, if_neg (by simp [h0])]
    exact ih (i + 1) fun j hj => by
      have := h (j + 1) (by omega)
      simpa [Nat.add_comm, Nat.add_assoc, Nat.add_left_comm] using this

theorem allZeroFrom_eq_false (block : Nat → Int) :
    ∀ (r i : Nat) (j : Nat), j < r → ¬ block (i + j) = 0 → allZeroFrom block i r = false := by
  intro r
  induction r with
  | zero => intro i j hj; omega
  | succ r ih =>
    intro i j hj hnz
    by_cases h0 : block i = 0
    · match j with
      | 0 => simp only [Nat.add_zero] at hnz; exact absurd h0 hnz
      | j + 1 =>
        rw [allZeroFrom, if_neg (by simp [h0])]
        exact ih (i + 1) j (by omega) (by
          have : i + 1 + j = i + (j + 1) := by omega
          rw [this]; exact hnz)
    · rw [allZeroFrom, if_pos (by simp [h0])]

/-- C1 counterexample: the valid sentinel with only sample 31 set decodes to
`-2 ^ 31`, not the claimed `2 ^ 31`, and a full all-zero block in the first
or last segment is classified SILENT, not audio. -/
theorem C1_counterexample :
    validSentinel blockTop = true ∧
    readEncodedBlock blockTop ≠ claimedSentinelCount blockTop ∧
    validSentinel zeroBlock = false ∧
    classifyFullBlock true zeroBlock ≠ SegType.AUDIO := by
  refine ⟨by decide, ?_, by decide, by decide⟩
  decide

/-- C1 (amended): for every 512-byte block given to the block decoder, if each
of the first 32 samples is `+1` or `-1` and every remaining sample is zero,
the decoder returns the sum contributing `2 ^ i` for each sample `i < 31`
equal to `+1` and `-2 ^ 31` when sample 31 equals `+1` (the JavaScript 32-bit
shift); in every other case it returns 0, and the block is then classified as
audio unless it lies in the first or last segment and is entirely zero, in
which case it is classified as silent. -/
theorem C1_block_decoder (block : Nat → Int) (firstOrLast : Bool) :
    (validSentinel block = true → readEncodedBlock block = sentinelCount block) ∧
    (validSentinel block = false →
      readEncodedBlock block = 0 ∧
      classifyFullBlock firstOrLast block =
        (if firstOrLast && isFullOfZeros block 512 then SegType.SILENT else SegType.AUDIO)) := by
  constructor
  · intro hv
    rw [validSentinel, Bool.and_eq_true] at hv
    obtain ⟨hhead, htail⟩ := hv
    rw [List.all_eq_true] at hhead htail
    have hheadP : ∀ j, j < 32 → block (0 + j) = 1 ∨ block (0 + j) = -1 := by
      intro j hj
      have := hhead j (List.mem_range.mpr hj)
      rcases Bool.or_eq_true _ _ |>.mp this with h | h
      · exact Or.inl (by simpa using h)
      · exact Or.inr (by simpa using h)
    have htailP : ∀ j, j < 224 → block (32 + j) = 0 := by
      intro j hj
      have := htail j (List.mem_range.mpr hj)
      simpa using this
    rw [readEncodedBlock, readEncodedBits_of_valid block 32 0 0 hheadP,
      allZeroFrom_eq_true block 224 32 htailP]
    simp [sentinelCount]
  · intro hv
    have hzero : readEncodedBlock block = 0 := by
      rw [validSentinel] at hv
      rcases Bool.and_eq_false_iff.mp hv with hhead | htail
      · have hhead2 : ¬ ((List.range 32).all fun i => block i == 1 || block i == -1) = true := by
          simp [hhead]
        rw [List.all_eq_true] at hhead2
        push_neg at hhead2
        obtain ⟨j, hjmem, hbad⟩ := hhead2
        have hj : j < 32 := List.mem_range.mp hjmem
        by_cases hex : ∃ k, k < 32 ∧ ¬ (block k = 1 ∨ block k = -1)
        · classical
          have hspec := Nat.find_spec hex
          set k0 := Nat.find hex with hk0
          obtain ⟨hk, hkbad⟩ := hspec
          push_neg at hkbad
          have hmin : ∀ m, m < k0 → block m = 1 ∨ block m = -1 := by
            intro m hm
            by_contra hmbad
            have hmlt : m < 32 ∧ ¬ (block m = 1 ∨ block m = -1) := ⟨by omega, hmbad⟩
            have hle : Nat.find hex ≤ m := Nat.find_le hmlt
            rw [← hk0] at hle
            omega
          have hnone := readEncodedBits_none block 32 0 0 k0 (by omega)
            (by simpa using hkbad.1) (by simpa using hkbad.2)
            (by intro m hm; simpa using hmin m hm)
          rw [readEncodedBlock, hnone]
        · exfalso
          apply hex
          refine ⟨j, hj, ?_⟩
          intro hcases
          apply hbad
          rcases hcases with h1 | h1 <;> simp [h1]
      · have htail2 : ¬ ((List.range 224).all fun i => block (32 + i) == 0) = true := by
          simp [htail]
        rw [List.all_eq_true] at htail2
        push_neg at htail2
        obtain ⟨j, hjmem, hbad⟩ := htail2
        have hj : j < 224 := List.mem_range.mp hjmem
        have hbad0 : ¬ block (32 + j) = 0 := by
          intro h; apply hbad; simp [h]
        have hfalse := allZeroFrom_eq_false block 224 32 j hj hbad0
        rw [readEncodedBlock]
        cases readEncodedBits block 0 32 0 with
        | none => rfl
        | some n => rw [hfalse]; rfl
    refine ⟨hzero, ?_⟩
    rw [classifyFullBlock, hzero]
    simp

/-- C1 witness: the amended decoder theorem applied to the valid sentinel
that decodes to 1 and to the all-zero block. -/
theorem C1_block_decoder_witness :
    readEncodedBlock blockOne = sentinelCount blockOne ∧
    (readEncodedBlock zeroBlock = 0 ∧
      classifyFullBlock false zeroBlock =
        (if false && isFullOfZeros zeroBlock 512 then SegType.SILENT else SegType.AUDIO)) :=
  ⟨(C1_block_decoder blockOne false).1 (by decide),
   (C1_block_decoder zeroBlock false).2 (by decide)⟩

end Expander

namespace Downsampler

/-- Fuel-based embedding of the `greatestCommonDivider` loop
(downsampler.js lines 46-60): while `a` is non-zero replace `(a, b)` by
`(b % a, a)`; the fuel argument strictly exceeds `a`, which suffices because
`b % a < a`. -/
def gcdLoop : Nat → Nat → Nat → Nat
  | 0, _, b => b
  | fuel + 1, a, b => if a = 0 then b else gcdLoop fuel (b % a) a

/-- Embedding of `greatestCommonDivider` (downsampler.js lines 46-60). -/
def greatestCommonDivider (a b : Nat) : Nat :=
  gcdLoop (a + 1) a b

/-- Valid requested sample rates (downsampler.js line 26). -/
def validSampleRates : List Nat := [8000, 16000, 32000, 48000, 96000, 192000, 250000, 384000]

/-- Divider of the output-length computation (downsampler.js line 251):
`originalSampleRate / 1000 / gcd`. -/
def downsampleDivider (originalSampleRate requestedSampleRate : Nat) : Nat :=
  originalSampleRate / 1000 /
    greatestCommonDivider (originalSampleRate / 1000) (requestedSampleRate / 1000)

/-- Multiplier of the output-length computation (downsampler.js line 253):
`requestedSampleRate / 1000 / gcd`. -/
def downsampleMultiplier (originalSampleRate requestedSampleRate : Nat) : Nat :=
  requestedSampleRate / 1000 /
    greatestCommonDivider (originalSampleRate / 1000) (requestedSampleRate / 1000)

/-- Embedding of the output length computed at downsampler.js line 255 and
recorded in the output header (line 269) and used as the streaming-loop bound
(line 303): `Math.floor(numberOfSamplesInInput / divider) * multiplier`. -/
def numberOfSamplesToWrite (originalSampleRate requestedSampleRate numberOfSamplesInInput : Nat) : Nat :=
  numberOfSamplesInInput / downsampleDivider originalSampleRate requestedSampleRate *
    downsampleMultiplier originalSampleRate requestedSampleRate

/-- Output length the specification text prescribes:
`floor(inputSamples * (R/1000/gcd) / (S/1000/gcd))`. -/
def claimedSamplesToWrite (originalSampleRate requestedSampleRate numberOfSamplesInInput : Nat) : Nat :=
  numberOfSamplesInInput * downsampleMultiplier originalSampleRate requestedSampleRate /
    downsampleDivider originalSampleRate requestedSampleRate

theorem gcdLoop_eq_gcd : ∀ (fuel a b : Nat), a < fuel → gcdLoop fuel a b = Nat.gcd a b := by
  intro fuel
  induction fuel with
  | zero => intro a b h; omega
  | succ fuel ih =>
    intro a b h
    by_cases ha : a = 0
    · simp [gcdLoop, ha]
    · rw [gcdLoop, if_neg ha, ih (b % a) a (by
        have := Nat.mod_lt b (Nat.pos_of_ne_zero ha)
        omega)]
      exact (Nat.gcd_rec a b).symm

theorem greatestCommonDivider_eq_gcd (a b : Nat) :
    greatestCommonDivider a b = Nat.gcd a b :=
  gcdLoop_eq_gcd (a + 1) a b (Nat.lt_succ_self a)

/-- C2 counterexample: at source rate 48000 Hz, requested rate 32000 Hz
(divider 3, multiplier 2) and 5 input samples, the code emits
`floor(5 / 3) * 2 = 2` samples while the specification formula gives
`floor(5 * 2 / 3) = 3`. -/
theorem C2_counterexample :
    numberOfSamplesToWrite 48000 32000 5 = 2 ∧
    claimedSamplesToWrite 48000 32000 5 = 3 := by
  constructor <;> rfl

/-- C2 (amended): for every downsample invocation that reaches the streaming
stage (requested rate `R` among the eight valid rates, `R ≤ S`, rates in
whole kHz), the number of output samples recorded in the header and used as
the write bound equals `floor(inputSamples / (S/1000/g)) * (R/1000/g)` with
`g = gcd(S/1000, R/1000)`.  This is at most the specification formula
`floor(inputSamples * (R/1000/g) / (S/1000/g))`, with equality whenever
`S/1000/g` divides `inputSamples`. -/
theorem C2_output_length (S R n : Nat) (hR : R ∈ validSampleRates) (hRS : R ≤ S)
    (hS : 1000 ∣ S) :
    numberOfSamplesToWrite S R n =
      n / downsampleDivider S R * downsampleMultiplier S R ∧
    numberOfSamplesToWrite S R n ≤ claimedSamplesToWrite S R n ∧
    (downsampleDivider S R ∣ n →
      numberOfSamplesToWrite S R n = claimedSamplesToWrite S R n) := by
  have hR8 : 8000 ≤ R := by fin_cases hR <;> norm_num
  have hSpos : 0 < S / 1000 := by
    have : 8000 ≤ S := le_trans hR8 hRS
    omega
  have hgpos : 0 < Nat.gcd (S / 1000) (R / 1000) := Nat.gcd_pos_of_pos_left _ hSpos
  have hgdvd : Nat.gcd (S / 1000) (R / 1000) ∣ S / 1000 := Nat.gcd_dvd_left _ _
  have hdpos : 0 < downsampleDivider S R := by
    rw [downsampleDivider, greatestCommonDivider_eq_gcd]
    exact Nat.div_pos (Nat.le_of_dvd hSpos hgdvd) hgpos
  refine ⟨rfl, ?_, ?_⟩
  · rw [numberOfSamplesToWrite, claimedSamplesToWrite]
    rw [Nat.le_div_iff_mul_le hdpos]
    calc n / downsampleDivider S R * downsampleMultiplier S R * downsampleDivider S R
        = n / downsampleDivider S R * downsampleDivider S R * downsampleMultiplier S R := by ring
      _ ≤ n * downsampleMultiplier S R :=
          Nat.mul_le_mul_right _ (Nat.div_mul_le_self n _)
  · rintro ⟨k, hk⟩
    subst hk
    rw [numberOfSamplesToWrite, claimedSamplesToWrite]
    rw [Nat.mul_div_cancel_left k hdpos]
    rw [mul_assoc, Nat.mul_div_cancel_left _ hdpos]

/-- C2 witness: the amended output-length theorem at the specification
scenario (48 kHz source, 16 kHz requested, 96000 input samples). -/
theorem C2_output_length_witness :
    numberOfSamplesToWrite 48000 16000 96000 =
      96000 / downsampleDivider 48000 16000 * downsampleMultiplier 48000 16000 ∧
    numberOfSamplesToWrite 48000 16000 96000 ≤ claimedSamplesToWrite 48000 16000 96000 ∧
    (downsampleDivider 48000 16000 ∣ 96000 →
      numberOfSamplesToWrite 48000 16000 96000 = claimedSamplesToWrite 48000 16000 96000) :=
  C2_output_length 48000 16000 96000 (by decide) (by decide) (by decide)

end Downsampler

namespace Splitter

/-- Output file descriptor built by `split` (splitter.js lines 326-330). -/
structure OutputFile where
  timestamp : Int
  offset : Nat
  length : Nat
deriving DecidableEq, Repr

/-- Loop of `split` building the output file list (splitter.js lines 314-336):
while bytes remain, take `min(maximumFileDuration * sampleRate * 2, remaining)`
bytes, record a descriptor, then advance the timestamp by
`maximumFileDuration * 1000` ms.  The fuel argument bounds the iteration
count; `dataSize` units of fuel suffice because each iteration consumes at
least one byte when the chunk size is positive. -/
def buildLoop (chunkBytes dataSize : Nat) (durMs : Int) :
    Nat → Nat → Int → List OutputFile
  | 0, _, _ => []
  | fuel + 1, processed, ts =>
    if processed < dataSize then
      ⟨ts, processed, min chunkBytes (dataSize - processed)⟩ ::
        buildLoop chunkBytes dataSize durMs fuel
          (processed + min chunkBytes (dataSize - processed)) (ts + durMs)
    else []

/-- Embedding of the descriptor construction of `split` (splitter.js lines
314-336). -/
def buildOutputFileList (maximumFileDuration samplesPerSecond dataSize : Nat)
    (originalTimestamp : Int) : List OutputFile :=
  buildLoop (maximumFileDuration * samplesPerSecond * 2) dataSize
    ((maximumFileDuration : Int) * 1000) dataSize 0 originalTimestamp

/-- Data-copy loop of `writeOutputFile` (splitter.js lines 113-135): read
`min(32768, offset + length - index)` bytes from the input at position
`header.size + index` and append them to the output, until `length` bytes
have been copied.  `input b` is byte `b` of the input file. -/
def writeDataLoop (input : Nat → Int) (headerSize off len : Nat) :
    Nat → Nat → List Int
  | 0, _ => []
  | fuel + 1, index =>
    if index < off + len then
      ((List.range (min 32768 (off + len - index))).map fun k =>
        input (headerSize + index + k)) ++
      writeDataLoop input headerSize off len fuel
        (index + min 32768 (off + len - index))
    else []

/-- Bytes of the data region of one output file of `split` (splitter.js
lines 113-135 with the initial `index = offset`). -/
def writeOutputData (input : Nat → Int) (headerSize off len : Nat) : List Int :=
  writeDataLoop input headerSize off len len off

theorem writeDataLoop_eq (input : Nat → Int) (headerSize off len : Nat) :
    ∀ (fuel index : Nat), off + len - index ≤ fuel →
      writeDataLoop input headerSize off len fuel index =
        (List.range (off + len - index)).map fun k => input (headerSize + index + k) := by
  intro fuel
  induction fuel with
  | zero =>
    intro index h
    rw [writeDataLoop]
    have : off + len - index = 0 := by omega
    rw [this]
    simp
  | succ fuel ih =>
    intro index h
    rw [writeDataLoop]
    by_cases hp : index < off + len
    · rw [if_pos hp]
      set n := min 32768 (off + len - index) with hn_def
      have hn : 0 < n := by omega
      rw [ih (index + n) (by omega)]
      have hsplit : off + len - index = n + (off + len - (index + n)) := by omega
      rw [hsplit, List.range_add, List.map_append]
      congr 1
      rw [List.map_map]
      apply List.map_congr_left
      intro k _
      simp only [Function.comp]
      congr 1
      omega
    · rw [if_neg hp]
      have : off + len - index = 0 := by omega
      rw [this]
      simp

theorem buildLoop_sum_lengths (chunk dataSize : Nat) (durMs : Int) :
    ∀ (fuel processed : Nat) (ts : Int), 0 < chunk → dataSize - processed ≤ fuel →
      ((buildLoop chunk dataSize durMs fuel processed ts).map fun f => f.length).sum =
        dataSize - processed := by
  intro fuel
  induction fuel with
  | zero =>
    intro processed ts _ h
    rw [buildLoop]
    simp
    omega
  | succ fuel ih =>
    intro processed ts hc h
    rw [buildLoop]
    by_cases hp : processed < dataSize
    · rw [if_pos hp]
      simp only [List.map_cons, List.sum_cons]
      rw [ih _ _ hc (by omega)]
      omega
    · rw [if_neg hp]
      simp
      omega

theorem buildLoop_head (chunk dataSize : Nat) (durMs : Int) :
    ∀ (fuel processed : Nat) (ts : Int),
      (buildLoop chunk dataSize durMs fuel processed ts).head? =
        if 0 < fuel ∧ processed < dataSize then
          some ⟨ts, processed, min chunk (dataSize - processed)⟩ else none := by
  intro fuel
  cases fuel with
  | zero => intro processed ts; rw [buildLoop]; simp
  | succ fuel =>
    intro processed ts
    rw [buildLoop]
    by_cases hp : processed < dataSize
    · rw [if_pos hp, if_pos ⟨Nat.succ_pos fuel, hp⟩]
      rfl
    · rw [if_neg hp, if_neg (by tauto)]
      rfl

theorem buildLoop_chain (chunk dataSize : Nat) (durMs : Int) :
    ∀ (fuel processed : Nat) (ts : Int),
      List.Chain' (fun a b => b.offset = a.offset + a.length ∧ b.timestamp = a.timestamp + durMs)
        (buildLoop chunk dataSize durMs fuel processed ts) := by
  intro fuel
  induction fuel with
  | zero => intro processed ts; rw [buildLoop]; exact List.chain'_nil
  | succ fuel ih =>
    intro processed ts
    rw [buildLoop]
    by_cases hp : processed < dataSize
    · rw [if_pos hp]
      refine List.chain'_cons'.mpr ⟨?_, ih _ _⟩
      intro y hy
      rw [buildLoop_head] at hy
      by_cases hcond : 0 < fuel ∧ processed + min chunk (dataSize - processed) < dataSize
      · rw [if_pos hcond] at hy
        cases hy
        exact ⟨rfl, rfl⟩
      · rw [if_neg hcond] at hy
        cases hy
    · rw [if_neg hp]
      exact List.chain'_nil

theorem buildLoop_mem (chunk dataSize : Nat) (durMs : Int) :
    ∀ (fuel processed : Nat) (ts : Int), 0 < chunk →
      ∀ f ∈ buildLoop chunk dataSize durMs fuel processed ts,
        0 < f.length ∧ f.offset + f.length ≤ dataSize := by
  intro fuel
  induction fuel with
  | zero =>
    intro processed ts _ f hf
    rw [buildLoop] at hf
    cases hf
  | succ fuel ih =>
    intro processed ts hc f hf
    rw [buildLoop] at hf
    by_cases hp : processed < dataSize
    · rw [if_pos hp] at hf
      rcases List.mem_cons.mp hf with hhead | htail
      · subst hhead
        constructor
        · simp only
          omega
        · simp only
          omega
      · exact ih _ _ hc f htail
    · rw [if_neg hp] at hf
      cases hf

theorem buildLoop_concat (input : Nat → Int) (headerSize chunk dataSize : Nat) (durMs : Int) :
    ∀ (fuel processed : Nat) (ts : Int), 0 < chunk → dataSize - processed ≤ fuel →
      ((buildLoop chunk dataSize durMs fuel processed ts).map fun f =>
          writeOutputData input headerSize f.offset f.length).flatten =
        (List.range (dataSize - processed)).map fun k => input (headerSize + processed + k) := by
  intro fuel
  induction fuel with
  | zero =>
    intro processed ts _ h
    rw [buildLoop]
    have : dataSize - processed = 0 := by omega
    rw [this]
    simp
  | succ fuel ih =>
    intro processed ts hc h
    rw [buildLoop]
    by_cases hp : processed < dataSize
    · rw [if_pos hp]
      simp only [List.map_cons, List.flatten_cons]
      set n := min chunk (dataSize - processed) with hn_def
      have hn : 0 < n := by omega
      rw [ih (processed + n) (ts + durMs) hc (by omega)]
      rw [writeOutputData, writeDataLoop_eq input headerSize _ _ _ _ (by omega)]
      have hsplit : dataSize - processed = n + (dataSize - (processed + n)) := by omega
      rw [hsplit, List.range_add, List.map_append]
      congr 1
      · exact congrArg _ (congrArg List.range (Nat.add_sub_cancel_left processed n))
      · rw [List.map_map]
        apply List.map_congr_left
        intro k _
        simp only [Function.comp]
        congr 1
        omega
    · rw [if_neg hp]
      have : dataSize - processed = 0 := by omega
      rw [this]
      simp

/-- C3: for every successful split invocation (positive file duration and
sample rate), the descriptors cover `[0, dataSize)` consecutively without
overlap, successive timestamps differ by exactly `maximumFileDuration * 1000`
milliseconds, each output data region is copied verbatim from the input at
`header.size + offset`, and the concatenation of the output data payloads in
list (timestamp) order is byte-identical to the input data payload. -/
theorem C3_split_coverage (maximumFileDuration samplesPerSecond dataSize : Nat)
    (originalTimestamp : Int) (input : Nat → Int) (headerSize : Nat)
    (hd : 0 < maximumFileDuration) (hsps : 0 < samplesPerSecond) :
    ((buildOutputFileList maximumFileDuration samplesPerSecond dataSize originalTimestamp).map
        fun f => f.length).sum = dataSize ∧
    (∀ f, (buildOutputFileList maximumFileDuration samplesPerSecond dataSize
        originalTimestamp).head? = some f → f.offset = 0 ∧ f.timestamp = originalTimestamp) ∧
    List.Chain' (fun a b => b.offset = a.offset + a.length ∧
        b.timestamp = a.timestamp + (maximumFileDuration : Int) * 1000)
      (buildOutputFileList maximumFileDuration samplesPerSecond dataSize originalTimestamp) ∧
    (∀ f ∈ buildOutputFileList maximumFileDuration samplesPerSecond dataSize originalTimestamp,
      0 < f.length ∧ f.offset + f.length ≤ dataSize) ∧
    (∀ off len, writeOutputData input headerSize off len =
      (List.range len).map fun k => input (headerSize + off + k)) ∧
    ((buildOutputFileList maximumFileDuration samplesPerSecond dataSize originalTimestamp).map
        fun f => writeOutputData input headerSize f.offset f.length).flatten =
      (List.range dataSize).map fun k => input (headerSize + k) := by
  have hc : 0 < maximumFileDuration * samplesPerSecond * 2 := by positivity
  refine ⟨?_, ?_, ?_, ?_, ?_, ?_⟩
  · rw [buildOutputFileList, buildLoop_sum_lengths _ _ _ _ _ _ hc (by omega)]
    omega
  · intro f hf
    rw [buildOutputFileList, buildLoop_head] at hf
    by_cases hcond : 0 < dataSize ∧ 0 < dataSize
    · rw [if_pos (by omega)] at hf
      cases hf
      exact ⟨rfl, rfl⟩
    · rw [if_neg (by omega)] at hf
      cases hf
  · exact buildLoop_chain _ _ _ _ _ _
  · exact buildLoop_mem _ _ _ _ _ _ hc
  · intro off len
    rw [writeOutputData, writeDataLoop_eq input headerSize off len len off (by omega)]
    have : off + len - off = len := by omega
    rw [this]
  · rw [buildOutputFileList, buildLoop_concat input headerSize _ _ _ _ _ _ hc (by omega)]
    simp

/-- C3 witness: the split coverage theorem at the specification scenario
(10 seconds of 48 kHz audio split into 3-second files). -/
theorem C3_split_coverage_witness :
    ((buildOutputFileList 3 48000 960000 0).map fun f => f.length).sum = 960000 ∧
    (∀ f, (buildOutputFileList 3 48000 960000 0).head? = some f →
      f.offset = 0 ∧ f.timestamp = 0) ∧
    List.Chain' (fun a b => b.offset = a.offset + a.length ∧
        b.timestamp = a.timestamp + (3 : Int) * 1000) (buildOutputFileList 3 48000 960000 0) ∧
    (∀ f ∈ buildOutputFileList 3 48000 960000 0, 0 < f.length ∧ f.offset + f.length ≤ 960000) ∧
    (∀ off len, writeOutputData (fun b => (b : Int)) 488 off len =
      (List.range len).map fun k => ((488 + off + k : Nat) : Int)) ∧
    ((buildOutputFileList 3 48000 960000 0).map fun f =>
        writeOutputData (fun b => (b : Int)) 488 f.offset f.length).flatten =
      (List.range 960000).map fun k => ((488 + k : Nat) : Int) :=
  C3_split_coverage 3 48000 960000 0 (fun b => (b : Int)) 488 (by decide) (by decide)

end Splitter

namespace Expander

/-- Seconds in one day (expander.js line 36). -/
def SECONDS_IN_DAY : Nat := 24 * 60 * 60

/-- File summary segment after the offset pass (expander.js lines 505-563). -/
structure Segment where
  type : SegType
  inputBytes : Nat
  outputBytes : Nat
  inputOffset : Nat
  outputOffset : Nat
deriving DecidableEq, Repr, Inhabited

/-- Output file descriptor of `expand` (expander.js lines 611-616). -/
structure OutputFile where
  timestamp : Int
  milliseconds : Bool
  offset : Nat
  length : Nat
deriving DecidableEq, Repr

/-- Audio test of the DURATION loop (expander.js lines 595-605): some AUDIO
segment overlaps the byte range starting at `numberOfBytesProcessed` of
length `numberOfBytes` (comparisons as in the source, over integers). -/
def sliceHasAudio (fileSummary : List Segment) (numberOfBytesProcessed numberOfBytes : Nat) : Bool :=
  fileSummary.any fun s =>
    s.type == SegType.AUDIO &&
    decide ((numberOfBytesProcessed : Int) ≤ (s.outputOffset : Int) + (s.outputBytes : Int) - 1) &&
    decide ((numberOfBytesProcessed : Int) + (numberOfBytes : Int) - 1 ≥ (s.outputOffset : Int))

/-- Main DURATION loop of `expand` (expander.js lines 583-624): cut the
reconstructed timeline into `chunkBytes`-sized slices and keep a slice when
it has audio, `generateSilentFiles` is set, or `maximumFileDuration` equals
`SECONDS_IN_DAY`; the timestamp advances by `durMs` per slice whether or not
the slice is kept. -/
def durationLoop (fileSummary : List Segment) (chunkBytes totalOutputBytes : Nat)
    (generateSilentFiles : Bool) (maximumFileDuration : Nat) (durMs : Int) :
    Nat → Nat → Int → List OutputFile
  | 0, _, _ => []
  | fuel + 1, processed, ts =>
    if processed < totalOutputBytes then
      (if sliceHasAudio fileSummary processed (min chunkBytes (totalOutputBytes - processed))
          || generateSilentFiles || (maximumFileDuration == SECONDS_IN_DAY) then
        [OutputFile.mk ts false processed (min chunkBytes (totalOutputBytes - processed))]
      else []) ++
      durationLoop fileSummary chunkBytes totalOutputBytes generateSilentFiles
        maximumFileDuration durMs fuel
        (processed + min chunkBytes (totalOutputBytes - processed)) (ts + durMs)
    else []

/-- DURATION output-file list of `expand` (expander.js lines 579-626). -/
def durationOutputFileList (fileSummary : List Segment)
    (maximumFileDuration samplesPerSecond totalOutputBytes : Nat)
    (generateSilentFiles : Bool) (originalTimestamp : Int) : List OutputFile :=
  durationLoop fileSummary (maximumFileDuration * samplesPerSecond * 2) totalOutputBytes
    generateSilentFiles maximumFileDuration ((maximumFileDuration : Int) * 1000)
    totalOutputBytes 0 originalTimestamp

/-- DURATION loop as the specification sentence reads: a slice is kept when it
intersects an AUDIO segment, or `generateSilentFiles` is set, or the slice
itself is a full one-day span (`SECONDS_IN_DAY * samplesPerSecond * 2`
bytes). -/
def claimedDurationLoop (fileSummary : List Segment) (chunkBytes totalOutputBytes : Nat)
    (generateSilentFiles : Bool) (samplesPerSecond : Nat) (durMs : Int) :
    Nat → Nat → Int → List OutputFile
  | 0, _, _ => []
  | fuel + 1, processed, ts =>
    if processed < totalOutputBytes then
      (if sliceHasAudio fileSummary processed (min chunkBytes (totalOutputBytes - processed))
          || generateSilentFiles
          || (min chunkBytes (totalOutputBytes - processed) == SECONDS_IN_DAY * samplesPerSecond * 2) then
        [OutputFile.mk ts false processed (min chunkBytes (totalOutputBytes - processed))]
      else []) ++
      claimedDurationLoop fileSummary chunkBytes totalOutputBytes generateSilentFiles
        samplesPerSecond durMs fuel
        (processed + min chunkBytes (totalOutputBytes - processed)) (ts + durMs)
    else []

/-- Specification reading of the DURATION output-file list. -/
def claimedDurationOutputFileList (fileSummary : List Segment)
    (maximumFileDuration samplesPerSecond totalOutputBytes : Nat)
    (generateSilentFiles : Bool) (originalTimestamp : Int) : List OutputFile :=
  claimedDurationLoop fileSummary (maximumFileDuration * samplesPerSecond * 2) totalOutputBytes
    generateSilentFiles samplesPerSecond ((maximumFileDuration : Int) * 1000)
    totalOutputBytes 0 originalTimestamp

/-- Timeline that is one short SILENT segment only. -/
def silentOnlySummary : List Segment :=
  [⟨SegType.SILENT, 512, 512, 0, 0⟩]

/-- C4 counterexample: a 512-byte purely silent timeline with
`maximumFileDuration = SECONDS_IN_DAY` and `generateSilentFiles = false`.
The code emits the (short, silent) slice because the configured duration is
one day, although the slice intersects no AUDIO segment, silent files were
not requested, and the slice is not a full one-day span. -/
theorem C4_counterexample :
    durationOutputFileList silentOnlySummary 86400 48000 512 false 0 =
      [OutputFile.mk 0 false 0 512] ∧
    claimedDurationOutputFileList silentOnlySummary 86400 48000 512 false 0 = [] := by
  constructor <;> rfl

theorem durationLoop_mem (fileSummary : List Segment) (chunk total : Nat) (gsf : Bool)
    (maxDur : Nat) (durMs : Int) (hc : 0 < chunk) :
    ∀ (fuel p : Nat) (ts : Int), total - p ≤ fuel → ∀ f : OutputFile,
      (f ∈ durationLoop fileSummary chunk total gsf maxDur durMs fuel p ts ↔
        ∃ k : Nat, p + k * chunk < total ∧
          f = OutputFile.mk (ts + k * durMs) false (p + k * chunk)
                (min chunk (total - (p + k * chunk))) ∧
          (sliceHasAudio fileSummary (p + k * chunk) (min chunk (total - (p + k * chunk)))
            || gsf || (maxDur == SECONDS_IN_DAY)) = true) := by
  intro fuel
  induction fuel with
  | zero =>
    intro p ts h f
    rw [durationLoop]
    simp only [List.not_mem_nil, false_iff]
    rintro ⟨k, hk, -, -⟩
    omega
  | succ fuel ih =>
    intro p ts h f
    rw [durationLoop]
    by_cases hp : p < total
    · rw [if_pos hp]
      rw [List.mem_append]
      constructor
      · rintro (hhead | htail)
        · refine ⟨0, by omega, ?_, ?_⟩
          · have hf : f = OutputFile.mk ts false p (min chunk (total - p)) := by
              by_cases hcond : (sliceHasAudio fileSummary p (min chunk (total - p))
                  || gsf || (maxDur == SECONDS_IN_DAY)) = true
              · rw [if_pos hcond] at hhead
                simpa using hhead
              · rw [if_neg hcond] at hhead
                cases hhead
            rw [hf]
            simp
          · by_cases hcond : (sliceHasAudio fileSummary p (min chunk (total - p))
                || gsf || (maxDur == SECONDS_IN_DAY)) = true
            · simpa using hcond
            · rw [if_neg hcond] at hhead
              cases hhead
        · obtain ⟨k, hk, hf, hcond⟩ :=
            (ih (p + min chunk (total - p)) (ts + durMs) (by omega) f).mp htail
          refine ⟨k + 1, ?_, ?_, ?_⟩
          · have hmin0 : min chunk (total - p) = chunk := by omega
            rw [hmin0] at hk
            have h1 : p + (k + 1) * chunk = p + chunk + k * chunk := by ring
            rw [h1]
            exact hk
          · have hmineq : min chunk (total - p) = chunk := by
              by_contra hne
              have : min chunk (total - p) = total - p := by omega
              rw [this] at hk
              omega
            rw [hf]
            rw [hmineq] at hk ⊢
            have h1 : p + chunk + k * chunk = p + (k + 1) * chunk := by ring
            have h2 : ts + durMs + (k : Int) * durMs = ts + ((k : Nat) + 1 : Nat) * durMs := by
              push_cast
              ring
            rw [h1, h2]
          · have hmineq : min chunk (total - p) = chunk := by
              by_contra hne
              have : min chunk (total - p) = total - p := by omega
              rw [this] at hk
              omega
            rw [hmineq] at hcond
            have h1 : p + chunk + k * chunk = p + (k + 1) * chunk := by ring
            rw [h1] at hcond
            exact hcond
      · rintro ⟨k, hk, hf, hcond⟩
        match k with
        | 0 =>
          left
          simp only [Nat.zero_mul, Nat.add_zero] at hk hf hcond
          rw [if_pos hcond]
          rw [hf]
          simp
        | k + 1 =>
          right
          have hmineq : min chunk (total - p) = chunk := by
            have : p + (k + 1) * chunk < total := hk
            have hineq : p + chunk ≤ total := by nlinarith [Nat.le_of_lt this]
            omega
          rw [(ih (p + min chunk (total - p)) (ts + durMs) (by omega) f)]
          refine ⟨k, ?_, ?_, ?_⟩
          · rw [hmineq]
            have h1 : p + chunk + k * chunk = p + (k + 1) * chunk := by ring
            rw [h1]
            exact hk
          · rw [hmineq]
            have h1 : p + chunk + k * chunk = p + (k + 1) * chunk := by ring
            have h2 : ts + durMs + (k : Int) * durMs = ts + ((k : Nat) + 1 : Nat) * durMs := by
              push_cast
              ring
            rw [h1, h2]
            exact hf
          · rw [hmineq]
            have h1 : p + chunk + k * chunk = p + (k + 1) * chunk := by ring
            rw [h1]
            exact hcond
    · rw [if_neg hp]
      simp only [List.not_mem_nil, false_iff]
      rintro ⟨k, hk, -, -⟩
      omega

/-- C4 (amended): in DURATION expansion, the `k`-th
`maximumFileDuration`-second slice of the reconstructed timeline is emitted
if and only if its byte range intersects an AUDIO segment, or
`generateSilentFiles` is set, or `maximumFileDuration` equals one day —
regardless of whether the (possibly short, final) slice itself spans a full
day. -/
theorem C4_duration_slices (fileSummary : List Segment)
    (maxDur sps total : Nat) (gsf : Bool) (ts0 : Int)
    (hd : 0 < maxDur) (hsps : 0 < sps) (f : OutputFile) :
    f ∈ durationOutputFileList fileSummary maxDur sps total gsf ts0 ↔
      ∃ k : Nat, k * (maxDur * sps * 2) < total ∧
        f = OutputFile.mk (ts0 + k * ((maxDur : Int) * 1000)) false (k * (maxDur * sps * 2))
              (min (maxDur * sps * 2) (total - k * (maxDur * sps * 2))) ∧
        (sliceHasAudio fileSummary (k * (maxDur * sps * 2))
            (min (maxDur * sps * 2) (total - k * (maxDur * sps * 2))) = true
          ∨ gsf = true ∨ maxDur = SECONDS_IN_DAY) := by
  have hc : 0 < maxDur * sps * 2 := by positivity
  rw [durationOutputFileList,
    durationLoop_mem fileSummary (maxDur * sps * 2) total gsf maxDur
      ((maxDur : Int) * 1000) hc total 0 ts0 (by omega) f]
  constructor
  · rintro ⟨k, hk, hf, hcond⟩
    refine ⟨k, by simpa using hk, by simpa using hf, ?_⟩
    simp only [Bool.or_eq_true, beq_iff_eq] at hcond
    simp only [Nat.zero_add] at hcond
    tauto
  · rintro ⟨k, hk, hf, hcond⟩
    refine ⟨k, by simpa using hk, by simpa using hf, ?_⟩
    simp only [Bool.or_eq_true, beq_iff_eq, Nat.zero_add]
    tauto

/-- C4 witness: the amended slice characterisation applied to a concrete
two-slice timeline and the descriptor of its first slice. -/
theorem C4_duration_slices_witness :
    OutputFile.mk 0 false 0 2 ∈
        durationOutputFileList [⟨SegType.AUDIO, 4, 4, 0, 0⟩] 1 1 4 false 0 ↔
      ∃ k : Nat, k * (1 * 1 * 2) < 4 ∧
        OutputFile.mk 0 false 0 2 = OutputFile.mk (0 + k * ((1 : Int) * 1000)) false (k * (1 * 1 * 2))
              (min (1 * 1 * 2) (4 - k * (1 * 1 * 2))) ∧
        (sliceHasAudio [⟨SegType.AUDIO, 4, 4, 0, 0⟩] (k * (1 * 1 * 2))
            (min (1 * 1 * 2) (4 - k * (1 * 1 * 2))) = true
          ∨ false = true ∨ 1 = SECONDS_IN_DAY) :=
  C4_duration_slices [⟨SegType.AUDIO, 4, 4, 0, 0⟩] 1 1 4 false 0 (by decide) (by decide)
    (OutputFile.mk 0 false 0 2)

end Expander

namespace Expander

/-- File summary entry as built by the segmentation loop, before the offset
pass (expander.js lines 439-522). -/
structure SegCore where
  type : SegType
  inputBytes : Nat
  outputBytes : Nat
deriving DecidableEq, Repr, Inhabited

/-- Append a window to the file summary (expander.js lines 505-522): when the
summary is non-empty and the type of the most recent entry agrees, merge into
it; otherwise start a new entry.  The summary is accumulated in reverse
order (most recent entry first) and reversed when the loop finishes. -/
def pushSegRev (acc : List SegCore) (s : SegCore) : List SegCore :=
  match acc with
  | [] => [s]
  | t :: rest =>
    if t.type = s.type then
      ⟨s.type, t.inputBytes + s.inputBytes, t.outputBytes + s.outputBytes⟩ :: rest
    else s :: t :: rest

/-- Summary entry for the window at the head of `rest` (expander.js lines
453-503).  `bytesRead` is `inputFileBytesRead`; a window shorter than 256
samples is the short trailing window (`numberOfBytes < 512`), a full window
is decoded as a candidate silent sentinel. -/
def windowSummary (headerSize dataSize bytesRead : Nat) (rest : List Int) : SegCore :=
  if rest.length < 256 then
    ⟨if (bytesRead + headerSize < 32 * 1024 ∨ dataSize - bytesRead < 32 * 1024) ∧
        isFullOfZeros (fun i => rest.getD i 0) (2 * rest.length) = true
      then SegType.SILENT else SegType.AUDIO, 2 * rest.length, 2 * rest.length⟩
  else
    if 0 < readEncodedBlock fun i => rest.getD i 0 then
      ⟨SegType.SILENT, 512, (readEncodedBlock fun i => rest.getD i 0).toNat * 512⟩
    else
      ⟨if (bytesRead + headerSize < 32 * 1024 ∨ dataSize - bytesRead < 32 * 1024) ∧
          isFullOfZeros (fun i => rest.getD i 0) 512 = true
        then SegType.SILENT else SegType.AUDIO, 512, 512⟩

/-- Segmentation loop of `expand` (expander.js lines 449-536) over the list
of remaining 16-bit samples; each iteration consumes `min(512, remaining)`
bytes, i.e. `min(256, rest.length)` samples.  The fuel bounds the iteration
count; the sample count of the payload suffices. -/
def segmentLoop (headerSize dataSize : Nat) :
    Nat → List Int → Nat → List SegCore → List SegCore
  | 0, _, _, acc => acc.reverse
  | fuel + 1, rest, bytesRead, acc =>
    if rest.isEmpty then acc.reverse
    else
      segmentLoop headerSize dataSize fuel (rest.drop 256)
        (bytesRead + 2 * min rest.length 256)
        (pushSegRev acc (windowSummary headerSize dataSize bytesRead rest))

/-- Number of 16-bit samples consumed by the initial alignment read
(expander.js lines 429-445): `min(dataSize, 512 - headerSize % 512) / 2`
when the header is not 512-byte aligned, zero otherwise. -/
def alignmentSamples (headerSize dataLen : Nat) : Nat :=
  if headerSize % 512 ≠ 0 then min (2 * dataLen) (512 - headerSize % 512) / 2 else 0

/-- Full segmentation pass of `expand` (expander.js lines 425-536): consume
the alignment window (classified SILENT exactly when all its samples are
zero), then run the block loop over the rest of the payload. -/
def segmentData (headerSize : Nat) (data : List Int) : List SegCore :=
  segmentLoop headerSize (2 * data.length) data.length
    (data.drop (alignmentSamples headerSize data.length))
    (2 * alignmentSamples headerSize data.length)
    (if headerSize % 512 ≠ 0 then
      [⟨if isFullOfZeros (fun i => data.getD i 0) (2 * alignmentSamples headerSize data.length) = true
          then SegType.SILENT else SegType.AUDIO,
        2 * alignmentSamples headerSize data.length,
        2 * alignmentSamples headerSize data.length⟩]
     else [])

/-- Offset pass of `expand` (expander.js lines 549-563): dress every summary
entry with the running input and output offsets. -/
def addOffsets : List SegCore → Nat → Nat → List Segment
  | [], _, _ => []
  | s :: rest, inputOffset, outputOffset =>
    ⟨s.type, s.inputBytes, s.outputBytes, inputOffset, outputOffset⟩ ::
      addOffsets rest (inputOffset + s.inputBytes) (outputOffset + s.outputBytes)

theorem pushSegRev_chain (acc : List SegCore) (s : SegCore)
    (h : List.Chain' (fun a b => a.type ≠ b.type) acc) :
    List.Chain' (fun a b => a.type ≠ b.type) (pushSegRev acc s) := by
  match acc with
  | [] => simp [pushSegRev]
  | t :: rest =>
    rw [pushSegRev]
    by_cases ht : t.type = s.type
    · rw [if_pos ht]
      obtain ⟨hhead, htail⟩ := List.chain'_cons'.mp h
      refine List.chain'_cons'.mpr ⟨?_, htail⟩
      intro y hy
      have h2 := hhead y hy
      show s.type ≠ y.type
      rw [← ht]
      exact h2
    · rw [if_neg ht]
      refine List.chain'_cons'.mpr ⟨?_, h⟩
      intro y hy
      simp only [List.head?_cons, Option.mem_def, Option.some.injEq] at hy
      subst hy
      exact fun hc => ht hc.symm

theorem chain_ne_reverse (l : List SegCore)
    (h : List.Chain' (fun a b : SegCore => a.type ≠ b.type) l) :
    List.Chain' (fun a b : SegCore => a.type ≠ b.type) l.reverse := by
  rw [List.chain'_reverse]
  exact List.Chain'.imp (fun a b hab => Ne.symm hab) h

theorem segmentLoop_chain (headerSize dataSize : Nat) :
    ∀ (fuel : Nat) (rest : List Int) (bytesRead : Nat) (acc : List SegCore),
      List.Chain' (fun a b => a.type ≠ b.type) acc →
      List.Chain' (fun a b => a.type ≠ b.type)
        (segmentLoop headerSize dataSize fuel rest bytesRead acc) := by
  intro fuel
  induction fuel with
  | zero =>
    intro rest bytesRead acc h
    rw [segmentLoop]
    exact chain_ne_reverse acc h
  | succ fuel ih =>
    intro rest bytesRead acc h
    rw [segmentLoop]
    by_cases hr : rest.isEmpty
    · rw [if_pos hr]
      exact chain_ne_reverse acc h
    · rw [if_neg hr]
      exact ih _ _ _ (pushSegRev_chain acc _ h)

theorem pushSegRev_sum_input (acc : List SegCore) (s : SegCore) :
    ((pushSegRev acc s).map fun x => x.inputBytes).sum =
      s.inputBytes + (acc.map fun x => x.inputBytes).sum := by
  match acc with
  | [] => simp [pushSegRev]
  | t :: rest =>
    rw [pushSegRev]
    by_cases ht : t.type = s.type
    · rw [if_pos ht]
      simp only [List.map_cons, List.sum_cons]
      omega
    · rw [if_neg ht]
      simp only [List.map_cons, List.sum_cons]

theorem windowSummary_inputBytes (headerSize dataSize bytesRead : Nat) (rest : List Int) :
    (windowSummary headerSize dataSize bytesRead rest).inputBytes = 2 * min rest.length 256 := by
  rw [windowSummary]
  by_cases h : rest.length < 256
  · rw [if_pos h]
    simp only
    omega
  · rw [if_neg h]
    by_cases h2 : 0 < readEncodedBlock fun i => rest.getD i 0
    · rw [if_pos h2]
      simp only
      omega
    · rw [if_neg h2]
      simp only
      omega

theorem segmentLoop_sum_input (headerSize dataSize : Nat) :
    ∀ (fuel : Nat) (rest : List Int) (bytesRead : Nat) (acc : List SegCore),
      rest.length ≤ fuel →
      ((segmentLoop headerSize dataSize fuel rest bytesRead acc).map fun s => s.inputBytes).sum =
        (acc.map fun s => s.inputBytes).sum + 2 * rest.length := by
  intro fuel
  induction fuel with
  | zero =>
    intro rest bytesRead acc h
    rw [segmentLoop]
    have : rest.length = 0 := by omega
    rw [this]
    simp [List.sum_reverse]
  | succ fuel ih =>
    intro rest bytesRead acc h
    rw [segmentLoop]
    by_cases hr : rest.isEmpty
    · rw [if_pos hr]
      have : rest.length = 0 := List.isEmpty_iff_length_eq_zero.mp hr
      rw [this]
      simp [List.sum_reverse]
    · rw [if_neg hr]
      have hlen : 0 < rest.length := by
        cases rest with
        | nil => simp at hr
        | cons a l => simp
      rw [ih (rest.drop 256) _ _ (by simp; omega)]
      rw [pushSegRev_sum_input, windowSummary_inputBytes]
      simp only [List.length_drop]
      omega

theorem addOffsets_length (segs : List SegCore) :
    ∀ (inputOffset outputOffset : Nat),
      (addOffsets segs inputOffset outputOffset).length = segs.length := by
  induction segs with
  | nil => intro a b; rfl
  | cons s rest ih =>
    intro a b
    rw [addOffsets]
    simp only [List.length_cons]
    rw [ih]

theorem addOffsets_spec (segs : List SegCore) :
    ∀ (inputOffset outputOffset i : Nat), i < segs.length →
      (addOffsets segs inputOffset outputOffset).getD i default =
        { type := (segs.getD i default).type,
          inputBytes := (segs.getD i default).inputBytes,
          outputBytes := (segs.getD i default).outputBytes,
          inputOffset := inputOffset + ((segs.take i).map fun s => s.inputBytes).sum,
          outputOffset := outputOffset + ((segs.take i).map fun s => s.outputBytes).sum } := by
  induction segs with
  | nil =>
    intro a b i h
    simp at h
  | cons s rest ih =>
    intro a b i h
    match i with
    | 0 =>
      simp [addOffsets]
    | i + 1 =>
      rw [addOffsets]
      simp only [List.getD_cons_succ, List.take_succ_cons, List.map_cons, List.sum_cons]
      rw [ih _ _ i (by simpa using h)]
      simp only [Segment.mk.injEq, true_and]
      constructor <;> omega

/-- C5: after the Expander segmentation pass (2-byte-aligned header), no two
adjacent file summary entries share a type (segments are maximal), the
`inputBytes` fields sum to `data.size`, and the offset pass gives every entry
the sums of the preceding entries' `inputBytes` and `outputBytes` as its
`inputOffset` and `outputOffset` (so in particular the final entry closes at
the total decompressed length). -/
theorem C5_segmentation_invariants (headerSize : Nat) (data : List Int)
    (_hhs : 2 ∣ headerSize) :
    List.Chain' (fun a b => a.type ≠ b.type) (segmentData headerSize data) ∧
    ((segmentData headerSize data).map fun s => s.inputBytes).sum = 2 * data.length ∧
    (addOffsets (segmentData headerSize data) 0 0).length =
      (segmentData headerSize data).length ∧
    (∀ i, i < (segmentData headerSize data).length →
      (addOffsets (segmentData headerSize data) 0 0).getD i default =
        { type := ((segmentData headerSize data).getD i default).type,
          inputBytes := ((segmentData headerSize data).getD i default).inputBytes,
          outputBytes := ((segmentData headerSize data).getD i default).outputBytes,
          inputOffset :=
            (((segmentData headerSize data).take i).map fun s => s.inputBytes).sum,
          outputOffset :=
            (((segmentData headerSize data).take i).map fun s => s.outputBytes).sum }) := by
  have halign : alignmentSamples headerSize data.length ≤ data.length := by
    rw [alignmentSamples]
    by_cases h : headerSize % 512 ≠ 0
    · rw [if_pos h]
      have h1 : min (2 * data.length) (512 - headerSize % 512) ≤ 2 * data.length :=
        min_le_left _ _
      omega
    · rw [if_neg h]
      omega
  refine ⟨?_, ?_, ?_, ?_⟩
  · rw [segmentData]
    apply segmentLoop_chain
    by_cases h : headerSize % 512 ≠ 0
    · rw [if_pos h]
      exact List.chain'_singleton _
    · rw [if_neg h]
      exact List.chain'_nil
  · rw [segmentData]
    rw [segmentLoop_sum_input _ _ data.length _ _ _ (by simp)]
    by_cases h : headerSize % 512 ≠ 0
    · rw [if_pos h]
      simp only [List.map_cons, List.map_nil, List.sum_cons, List.sum_nil, List.length_drop]
      omega
    · rw [if_neg h]
      simp only [List.map_nil, List.sum_nil, List.length_drop]
      have h0 : alignmentSamples headerSize data.length = 0 := by
        rw [alignmentSamples, if_neg h]
      omega
  · exact addOffsets_length _ 0 0
  · intro i hi
    rw [addOffsets_spec _ 0 0 i hi]
    simp only [Nat.zero_add]

/-- C5 witness: the segmentation invariants at a concrete 600-sample payload
behind a 488-byte header. -/
theorem C5_segmentation_invariants_witness :
    List.Chain' (fun a b => a.type ≠ b.type)
      (segmentData 488 (List.replicate 600 (7 : Int))) ∧
    ((segmentData 488 (List.replicate 600 (7 : Int))).map fun s => s.inputBytes).sum =
      2 * (List.replicate 600 (7 : Int)).length ∧
    (addOffsets (segmentData 488 (List.replicate 600 (7 : Int))) 0 0).length =
      (segmentData 488 (List.replicate 600 (7 : Int))).length ∧
    (∀ i, i < (segmentData 488 (List.replicate 600 (7 : Int))).length →
      (addOffsets (segmentData 488 (List.replicate 600 (7 : Int))) 0 0).getD i default =
        { type := ((segmentData 488 (List.replicate 600 (7 : Int))).getD i default).type,
          inputBytes :=
            ((segmentData 488 (List.replicate 600 (7 : Int))).getD i default).inputBytes,
          outputBytes :=
            ((segmentData 488 (List.replicate 600 (7 : Int))).getD i default).outputBytes,
          inputOffset :=
            (((segmentData 488 (List.replicate 600 (7 : Int))).take i).map
              fun s => s.inputBytes).sum,
          outputOffset :=
            (((segmentData 488 (List.replicate 600 (7 : Int))).take i).map
              fun s => s.outputBytes).sum }) :=
  C5_segmentation_invariants 488 (List.replicate 600 (7 : Int)) (by decide)

end Expander

namespace Aligner

/-- Decimal digits of a natural number, most significant first, computed with
fuel (`n + 1` steps suffice since `n / 10 < n` for `n ≥ 10`).  These are the
characters of the JavaScript string `String(n)` for the integer sample rates
handled by the aligner. -/
def decimalDigitsAux : Nat → Nat → List Nat
  | 0, _ => []
  | fuel + 1, n => if n < 10 then [n] else decimalDigitsAux fuel (n / 10) ++ [n % 10]

/-- Decimal digits of a natural number, most significant first. -/
def decimalDigits (n : Nat) : List Nat :=
  decimalDigitsAux (n + 1) n

/-- Lexicographic (JavaScript string) strict order on digit sequences: the
order used by `Array.prototype.sort()` without a comparator, as in
`sampleRates.sort()` at aligner.js line 916. -/
def lexLt : List Nat → List Nat → Bool
  | _, [] => false
  | [], _ :: _ => true
  | a :: as, b :: bs => if a < b then true else if b < a then false else lexLt as bs

/-- Insert into a list sorted by the JavaScript default (string) order. -/
def insertLex (x : Nat) : List Nat → List Nat
  | [] => [x]
  | y :: ys => if lexLt (decimalDigits y) (decimalDigits x) then y :: insertLex x ys
               else x :: y :: ys

/-- Result of `sampleRates.sort()` (aligner.js line 916): the rates sorted by
the default JavaScript comparator, i.e. lexicographically by their decimal
string representations. -/
def jsDefaultSort : List Nat → List Nat
  | [] => []
  | x :: xs => insertLex x (jsDefaultSort xs)

/-- Insert into a numerically sorted list. -/
def insertNum (x : Nat) : List Nat → List Nat
  | [] => [x]
  | y :: ys => if y < x then y :: insertNum x ys else x :: y :: ys

/-- Ascending numeric sort, as the specification sentence prescribes. -/
def numericSort : List Nat → List Nat
  | [] => []
  | x :: xs => insertNum x (numericSort xs)

/-- Embedding of the sufficiency check and median computation of
`align.initialise` (aligner.js lines 891-920): fail when fewer than two fixes
were committed, otherwise sort the committed sample rates with the default
JavaScript sort and take the element at index `floor(length / 2)`. -/
def initialiseMedian (sampleRates : List Nat) : Except String Nat :=
  if sampleRates.length < 2 then
    Except.error "Insufficient fixes within the GPS.TXT file to estimate clock drift."
  else
    Except.ok ((jsDefaultSort sampleRates).getD (sampleRates.length / 2) 0)

/-- Median as the specification sentence reads: the middle element of the
rates sorted in ascending numeric order, the upper of the two middle elements
when the count is even. -/
def claimedMedian (sampleRates : List Nat) : Except String Nat :=
  if sampleRates.length < 2 then
    Except.error "Insufficient fixes within the GPS.TXT file to estimate clock drift."
  else
    Except.ok ((numericSort sampleRates).getD (sampleRates.length / 2) 0)

/-- C9 counterexample: sample rates 100000, 8000, 99000 mHz (from
"100.000 Hz", "8.000 Hz", "99.000 Hz" log lines).  The default JavaScript
sort orders their strings as "100000" < "8000" < "99000", so the code picks
8000 as the median, while the numeric upper median is 99000. -/
theorem C9_counterexample :
    initialiseMedian [100000, 8000, 99000] = Except.ok 8000 ∧
    claimedMedian [100000, 8000, 99000] = Except.ok 99000 := by
  constructor <;> rfl

/-- Value of a digit sequence. -/
def valOfDigits (ds : List Nat) : Nat :=
  ds.foldl (fun a d => 10 * a + d) 0

theorem foldl_digits_acc (ds : List Nat) :
    ∀ acc : Nat, ds.foldl (fun a d => 10 * a + d) acc =
      acc * 10 ^ ds.length + valOfDigits ds := by
  induction ds with
  | nil => intro acc; simp [valOfDigits]
  | cons d ds ih =>
    intro acc
    rw [List.foldl_cons, ih (10 * acc + d)]
    have h2 : valOfDigits (d :: ds) = d * 10 ^ ds.length + valOfDigits ds := by
      show List.foldl (fun a d => 10 * a + d) 0 (d :: ds) = _
      rw [List.foldl_cons, ih (10 * 0 + d)]
      ring
    rw [h2]
    simp only [List.length_cons, pow_succ]
    ring

theorem valOfDigits_cons (d : Nat) (ds : List Nat) :
    valOfDigits (d :: ds) = d * 10 ^ ds.length + valOfDigits ds := by
  show List.foldl (fun a d => 10 * a + d) 0 (d :: ds) = _
  rw [List.foldl_cons, foldl_digits_acc]
  ring

theorem valOfDigits_lt (ds : List Nat) (h : ∀ d ∈ ds, d < 10) :
    valOfDigits ds < 10 ^ ds.length := by
  induction ds with
  | nil => simp [valOfDigits]
  | cons d ds ih =>
    have hd : d < 10 := h d (List.mem_cons_self d ds)
    have htail := ih fun x hx => h x (List.mem_cons_of_mem d hx)
    rw [valOfDigits_cons]
    simp only [List.length_cons, pow_succ]
    calc d * 10 ^ ds.length + valOfDigits ds
        < d * 10 ^ ds.length + 10 ^ ds.length := by omega
      _ = (d + 1) * 10 ^ ds.length := by ring
      _ ≤ 10 * 10 ^ ds.length := Nat.mul_le_mul_right _ (by omega)
      _ = 10 ^ ds.length * 10 := by ring
  
theorem decimalDigitsAux_spec :
    ∀ (fuel n : Nat), n < fuel →
      valOfDigits (decimalDigitsAux fuel n) = n ∧
      (∀ d ∈ decimalDigitsAux fuel n, d < 10) ∧
      decimalDigitsAux fuel n ≠ [] := by
  intro fuel
  induction fuel with
  | zero => intro n h; omega
  | succ fuel ih =>
    intro n h
    rw [decimalDigitsAux]
    by_cases hn : n < 10
    · rw [if_pos hn]
      refine ⟨by simp [valOfDigits], ?_, by simp⟩
      intro d hd
      simp only [List.mem_singleton] at hd
      omega
    · rw [if_neg hn]
      have hrec : n / 10 < fuel := by omega
      obtain ⟨hval, hbound, hne⟩ := ih (n / 10) hrec
      refine ⟨?_, ?_, by simp⟩
      · rw [valOfDigits, List.foldl_append]
        simp only [List.foldl_cons, List.foldl_nil]
        rw [show List.foldl (fun a d => 10 * a + d) 0 (decimalDigitsAux fuel (n / 10)) =
          valOfDigits (decimalDigitsAux fuel (n / 10)) from rfl, hval]
        omega
      · intro d hd
        rcases List.mem_append.mp hd with h1 | h1
        · exact hbound d h1
        · simp only [List.mem_singleton] at h1
          omega

theorem decimalDigits_val (n : Nat) : valOfDigits (decimalDigits n) = n :=
  (decimalDigitsAux_spec (n + 1) n (Nat.lt_succ_self n)).1

theorem decimalDigits_bound (n : Nat) : ∀ d ∈ decimalDigits n, d < 10 :=
  (decimalDigitsAux_spec (n + 1) n (Nat.lt_succ_self n)).2.1

theorem lexLt_iff_val_lt :
    ∀ (ds es : List Nat), ds.length = es.length →
      (∀ d ∈ ds, d < 10) → (∀ e ∈ es, e < 10) →
      (lexLt ds es = true ↔ valOfDigits ds < valOfDigits es) := by
  intro ds
  induction ds with
  | nil =>
    intro es hlen _ _
    have : es = [] := List.eq_nil_of_length_eq_zero hlen.symm
    subst this
    simp [lexLt, valOfDigits]
  | cons a as ih =>
    intro es hlen hds hes
    cases es with
    | nil => simp at hlen
    | cons b bs =>
      simp only [List.length_cons, Nat.succ.injEq] at hlen
      have ha : a < 10 := hds a (List.mem_cons_self a as)
      have hb : b < 10 := hes b (List.mem_cons_self b bs)
      have has : ∀ d ∈ as, d < 10 := fun d hd => hds d (List.mem_cons_of_mem a hd)
      have hbs : ∀ e ∈ bs, e < 10 := fun e he => hes e (List.mem_cons_of_mem b he)
      have hvas := valOfDigits_lt as has
      have hvbs := valOfDigits_lt bs hbs
      rw [lexLt]
      rw [valOfDigits_cons, valOfDigits_cons, ← hlen]
      by_cases hab : a < b
      · rw [if_pos hab]
        simp only [true_iff]
        have : a + 1 ≤ b := hab
        calc a * 10 ^ as.length + valOfDigits as
            < a * 10 ^ as.length + 10 ^ as.length := by omega
          _ = (a + 1) * 10 ^ as.length := by ring
          _ ≤ b * 10 ^ as.length := Nat.mul_le_mul_right _ this
          _ ≤ b * 10 ^ as.length + valOfDigits bs := Nat.le_add_right _ _
      · rw [if_neg hab]
        by_cases hba : b < a
        · rw [if_pos hba]
          simp only [Bool.false_eq_true, false_iff, not_lt]
          have hsucc : b + 1 ≤ a := hba
          have hcalc : b * 10 ^ as.length + valOfDigits bs <
              a * 10 ^ as.length + valOfDigits as := by
            calc b * 10 ^ as.length + valOfDigits bs
                < b * 10 ^ as.length + 10 ^ as.length := by
                    rw [← hlen] at hvbs
                    omega
              _ = (b + 1) * 10 ^ as.length := by ring
              _ ≤ a * 10 ^ as.length := Nat.mul_le_mul_right _ hsucc
              _ ≤ a * 10 ^ as.length + valOfDigits as := Nat.le_add_right _ _
          exact le_of_lt hcalc
        · rw [if_neg hba]
          have hab2 : a = b := by omega
          subst hab2
          rw [ih bs hlen has hbs]
          omega

theorem lexLt_iff_lt (a b : Nat)
    (hlen : (decimalDigits a).length = (decimalDigits b).length) :
    lexLt (decimalDigits a) (decimalDigits b) = true ↔ a < b := by
  rw [lexLt_iff_val_lt (decimalDigits a) (decimalDigits b) hlen
    (decimalDigits_bound a) (decimalDigits_bound b)]
  rw [decimalDigits_val, decimalDigits_val]

theorem insertNum_mem (x : Nat) :
    ∀ (l : List Nat) (a : Nat), a ∈ insertNum x l ↔ a = x ∨ a ∈ l := by
  intro l
  induction l with
  | nil => intro a; simp [insertNum]
  | cons y ys ih =>
    intro a
    rw [insertNum]
    by_cases hyx : y < x
    · rw [if_pos hyx]
      simp only [List.mem_cons, ih]
      tauto
    · rw [if_neg hyx]
      simp only [List.mem_cons]

theorem numericSort_mem :
    ∀ (l : List Nat) (a : Nat), a ∈ numericSort l ↔ a ∈ l := by
  intro l
  induction l with
  | nil => intro a; simp [numericSort]
  | cons x xs ih =>
    intro a
    rw [numericSort, insertNum_mem]
    simp only [List.mem_cons, ih]

theorem insertLex_eq_insertNum (x : Nat) :
    ∀ (l : List Nat),
      (∀ y ∈ l, (decimalDigits y).length = (decimalDigits x).length) →
      insertLex x l = insertNum x l := by
  intro l
  induction l with
  | nil => intro _; rfl
  | cons y ys ih =>
    intro h
    have hy : (decimalDigits y).length = (decimalDigits x).length :=
      h y (List.mem_cons_self y ys)
    rw [insertLex, insertNum]
    by_cases hyx : y < x
    · rw [if_pos hyx, if_pos ((lexLt_iff_lt y x hy).mpr hyx)]
      rw [ih fun z hz => h z (List.mem_cons_of_mem y hz)]
    · rw [if_neg hyx]
      rw [if_neg (by
        intro hc
        exact hyx ((lexLt_iff_lt y x hy).mp hc))]

theorem jsDefaultSort_eq_numericSort :
    ∀ (l : List Nat),
      (∀ a ∈ l, ∀ b ∈ l, (decimalDigits a).length = (decimalDigits b).length) →
      jsDefaultSort l = numericSort l := by
  intro l
  induction l with
  | nil => intro _; rfl
  | cons x xs ih =>
    intro h
    rw [jsDefaultSort, numericSort]
    rw [ih fun a ha b hb =>
      h a (List.mem_cons_of_mem x ha) b (List.mem_cons_of_mem x hb)]
    apply insertLex_eq_insertNum
    intro y hy
    have hy2 : y ∈ xs := (numericSort_mem xs y).mp hy
    exact h y (List.mem_cons_of_mem x hy2) x (List.mem_cons_self x xs)

/-- C9 (amended): `align.initialise` fails with the insufficient-fixes error
whenever fewer than two fixes are committed; otherwise `medianSampleRate` is
the element at index `floor(n / 2)` of the committed sample rates sorted by
the default JavaScript sort, i.e. lexicographically by decimal string — which
coincides with the ascending numeric order (hence with the claimed numeric
upper median) exactly on inputs whose rates all have the same number of
decimal digits. -/
theorem C9_median (sampleRates : List Nat) :
    (sampleRates.length < 2 →
      initialiseMedian sampleRates =
        Except.error "Insufficient fixes within the GPS.TXT file to estimate clock drift.") ∧
    (2 ≤ sampleRates.length →
      initialiseMedian sampleRates =
        Except.ok ((jsDefaultSort sampleRates).getD (sampleRates.length / 2) 0)) ∧
    ((∀ a ∈ sampleRates, ∀ b ∈ sampleRates,
        (decimalDigits a).length = (decimalDigits b).length) →
      initialiseMedian sampleRates = claimedMedian sampleRates) := by
  refine ⟨?_, ?_, ?_⟩
  · intro h
    rw [initialiseMedian, if_pos h]
  · intro h
    rw [initialiseMedian, if_neg (by omega)]
  · intro h
    rw [initialiseMedian, claimedMedian, jsDefaultSort_eq_numericSort sampleRates h]

/-- C9 witness: the amended median theorem at two concrete rate lists (one
too short, one with three same-digit-count rates). -/
theorem C9_median_witness :
    initialiseMedian [48000123] =
      Except.error "Insufficient fixes within the GPS.TXT file to estimate clock drift." ∧
    initialiseMedian [48000123, 47999800, 48000456] =
      Except.ok ((jsDefaultSort [48000123, 47999800, 48000456]).getD 1 0) ∧
    initialiseMedian [48000123, 47999800, 48000456] =
      claimedMedian [48000123, 47999800, 48000456] :=
  ⟨(C9_median [48000123]).1 (by decide),
   (C9_median [48000123, 47999800, 48000456]).2.1 (by decide),
   (C9_median [48000123, 47999800, 48000456]).2.2 (by decide)⟩

end Aligner

namespace Guano

/-- UTF-8 bytes of the RIFF id "guan". -/
def guanId : List Nat := [0x67, 0x75, 0x61, 0x6e]

/-- RIFF chunk header: id bytes and declared size (guanoHandler.js lines
43-54). -/
structure Chunk where
  id : List Nat
  size : Nat
deriving DecidableEq, Repr

/-- GUANO value built by `readGuano` (guanoHandler.js lines 96-146): the
`guan` chunk header, the contents string (modelled as its UTF-8 byte
sequence, so `toString` on the body is the identity), the raw body buffer
and the total size including the 8 header bytes. -/
structure GuanoData where
  guan : Chunk
  contents : List Nat
  buffer : List Nat
  size : Nat
deriving DecidableEq, Repr

/-- Embedding of `readGuano` (guanoHandler.js lines 96-146) over a byte list:
read the `guan` chunk id and its little-endian 32-bit size (each read checks
the remaining buffer length, a failed check being the thrown-and-caught
RIFF-length error), reject when `size + 8` exceeds `availableBytes`, then
read the body. -/
def readGuano (buffer : List Nat) (bufferSize : Nat) : Except String GuanoData :=
  if buffer.length < 4 then Except.error "RIFF component exceeded buffer length."
  else if buffer.take 4 ≠ guanId then Except.error "Could not find guan chunk ID."
  else if buffer.length - 4 < 4 then Except.error "RIFF component exceeded buffer length."
  else
    if buffer.getD 4 0 + 256 * buffer.getD 5 0 + 65536 * buffer.getD 6 0 +
        16777216 * buffer.getD 7 0 + 4 + 4 > bufferSize then
      Except.error "GUANO size exceeds buffer size."
    else if buffer.length - 8 < buffer.getD 4 0 + 256 * buffer.getD 5 0 +
        65536 * buffer.getD 6 0 + 16777216 * buffer.getD 7 0 then
      Except.error "RIFF component exceeded buffer length."
    else
      Except.ok
        { guan :=
            { id := buffer.take 4,
              size := buffer.getD 4 0 + 256 * buffer.getD 5 0 + 65536 * buffer.getD 6 0 +
                16777216 * buffer.getD 7 0 },
          contents := (buffer.drop 8).take (buffer.getD 4 0 + 256 * buffer.getD 5 0 +
            65536 * buffer.getD 6 0 + 16777216 * buffer.getD 7 0),
          buffer := (buffer.drop 8).take (buffer.getD 4 0 + 256 * buffer.getD 5 0 +
            65536 * buffer.getD 6 0 + 16777216 * buffer.getD 7 0),
          size := buffer.getD 4 0 + 256 * buffer.getD 5 0 + 65536 * buffer.getD 6 0 +
            16777216 * buffer.getD 7 0 + 4 + 4 }

/-- Embedding of `writeString` for the 4-byte chunk id (guanoHandler.js lines
58-68): zero-fill 4 bytes then write at most 4 bytes of the id. -/
def writeString4 (id : List Nat) : List Nat :=
  id.take 4 ++ List.replicate (4 - id.length) 0

/-- Little-endian byte encoding of a 32-bit value (guanoHandler.js lines
78-84); exact for values below `2 ^ 32`. -/
def uint32le (v : Nat) : List Nat :=
  [v % 256, v / 256 % 256, v / 65536 % 256, v / 16777216 % 256]

/-- Embedding of `writeGuano` (guanoHandler.js lines 148-158): write the
chunk id, the 32-bit size and the body at the start of `buffer`, leaving the
remainder of `buffer` untouched. -/
def writeGuano (buffer : List Nat) (g : GuanoData) : List Nat :=
  writeString4 g.guan.id ++ uint32le g.guan.size ++ g.buffer ++
    buffer.drop (4 + 4 + g.buffer.length)

/-- Embedding of `updateContents` (guanoHandler.js lines 162-172); with
strings as byte sequences, `Buffer.from(contents, 'utf8')` is the
identity. -/
def updateContents (g : GuanoData) (contents : List Nat) : GuanoData :=
  { guan := { id := g.guan.id, size := contents.length },
    contents := contents,
    buffer := contents,
    size := 4 + 4 + contents.length }

/-- Shape shared by every guano returned by a successful `readGuano` (on an
octet buffer) or produced by `updateContents`. -/
def wellFormed (g : GuanoData) : Prop :=
  g.guan.id = guanId ∧ g.buffer.length = g.guan.size ∧ g.contents = g.buffer ∧
    g.size = g.guan.size + 4 + 4 ∧ g.guan.size < 2 ^ 32

theorem uint32le_roundtrip (v : Nat) (h : v < 2 ^ 32) :
    v % 256 + 256 * (v / 256 % 256) + 65536 * (v / 65536 % 256) +
      16777216 * (v / 16777216 % 256) = v := by
  omega

theorem getD_lt_256 (buffer : List Nat) (hoctets : ∀ b ∈ buffer, b < 256) (i : Nat) :
    buffer.getD i 0 < 256 := by
  by_cases hb : i < buffer.length
  · rw [List.getD_eq_getElem buffer 0 hb]
    exact hoctets _ (List.getElem_mem hb)
  · rw [List.getD_eq_default _ _ (by omega)]
    omega

theorem readGuano_wellFormed (buffer : List Nat) (bufferSize : Nat) (g : GuanoData)
    (hoctets : ∀ b ∈ buffer, b < 256) (h : readGuano buffer bufferSize = Except.ok g) :
    wellFormed g := by
  rw [readGuano] at h
  by_cases h1 : buffer.length < 4
  · rw [if_pos h1] at h; cases h
  rw [if_neg h1] at h
  by_cases h2 : buffer.take 4 ≠ guanId
  · rw [if_pos h2] at h; cases h
  rw [if_neg h2] at h
  by_cases h3 : buffer.length - 4 < 4
  · rw [if_pos h3] at h; cases h
  rw [if_neg h3] at h
  by_cases h4 : buffer.getD 4 0 + 256 * buffer.getD 5 0 + 65536 * buffer.getD 6 0 +
      16777216 * buffer.getD 7 0 + 4 + 4 > bufferSize
  · rw [if_pos h4] at h; cases h
  rw [if_neg h4] at h
  by_cases h5 : buffer.length - 8 < buffer.getD 4 0 + 256 * buffer.getD 5 0 +
      65536 * buffer.getD 6 0 + 16777216 * buffer.getD 7 0
  · rw [if_pos h5] at h; cases h
  rw [if_neg h5] at h
  injection h with hg
  subst hg
  push_neg at h2 h5
  have hsize : buffer.getD 4 0 + 256 * buffer.getD 5 0 + 65536 * buffer.getD 6 0 +
      16777216 * buffer.getD 7 0 < 2 ^ 32 := by
    have b4 := getD_lt_256 buffer hoctets 4
    have b5 := getD_lt_256 buffer hoctets 5
    have b6 := getD_lt_256 buffer hoctets 6
    have b7 := getD_lt_256 buffer hoctets 7
    omega
  refine ⟨h2, ?_, rfl, rfl, hsize⟩
  show (List.take _ (List.drop 8 buffer)).length = _
  simp only [List.length_take, List.length_drop]
  omega

theorem updateContents_wellFormed (g : GuanoData) (contents : List Nat)
    (hg : wellFormed g) (hlen : contents.length < 2 ^ 32) :
    wellFormed (updateContents g contents) := by
  obtain ⟨hid, -, -, -, -⟩ := hg
  exact ⟨hid, rfl, rfl, by simp only [updateContents]; omega, hlen⟩

theorem writeGuano_readGuano (g : GuanoData) (buffer : List Nat) (availableBytes : Nat)
    (hg : wellFormed g) (hav : g.size ≤ availableBytes) :
    readGuano (writeGuano buffer g) availableBytes = Except.ok g := by
  obtain ⟨⟨id, gsize⟩, cont, body, size⟩ := g
  obtain ⟨hid, hlen, hcontents, hsize, hbound⟩ := hg
  simp only at hid hlen hcontents hsize hbound hav
  subst hid hsize
  subst hcontents
  rw [writeGuano]
  simp only
  have hid4 : writeString4 guanId = guanId := rfl
  rw [hid4]
  set w := guanId ++ uint32le gsize ++ cont ++ buffer.drop (4 + 4 + cont.length) with hw
  have hwlen : 8 + gsize ≤ w.length := by
    rw [hw]
    simp only [List.length_append, List.length_drop]
    simp [guanId, uint32le]
    omega
  have htake4 : w.take 4 = guanId := rfl
  have hval : w.getD 4 0 + 256 * w.getD 5 0 + 65536 * w.getD 6 0 +
      16777216 * w.getD 7 0 = gsize := by
    have hb4 : w.getD 4 0 = gsize % 256 := rfl
    have hb5 : w.getD 5 0 = gsize / 256 % 256 := rfl
    have hb6 : w.getD 6 0 = gsize / 65536 % 256 := rfl
    have hb7 : w.getD 7 0 = gsize / 16777216 % 256 := rfl
    rw [hb4, hb5, hb6, hb7]
    exact uint32le_roundtrip _ hbound
  have hdrop : w.drop 8 = cont ++ buffer.drop (4 + 4 + cont.length) := rfl
  have hlen8 : w.length - 8 = cont.length + (buffer.drop (4 + 4 + cont.length)).length := by
    rw [hw]
    simp only [List.length_append, List.length_drop]
    simp [guanId, uint32le]
    omega
  rw [readGuano]
  rw [if_neg (by omega), if_neg (by rw [htake4]; simp), if_neg (by omega), hval]
  rw [if_neg (by omega)]
  rw [if_neg (by omega)]
  have hbody : (w.drop 8).take gsize = cont := by
    rw [hdrop, ← hlen]
    exact List.take_left _ _
  rw [htake4, hbody]

/-- C10: for every guano `g` returned by a successful `readGuano` on an octet
buffer or produced by `updateContents` from such a guano (with contents
below the 32-bit limit), writing `g` with `writeGuano` into any buffer and
reading it back with `availableBytes ≥ g.size` succeeds and returns exactly
`g` — same `guan.size`, same contents, same body bytes — with
`g.size = g.guan.size + 8`. -/
theorem C10_guano_roundtrip (g : GuanoData) (buffer : List Nat) (availableBytes : Nat)
    (horigin :
      (∃ src n, (∀ b ∈ src, b < 256) ∧ readGuano src n = Except.ok g) ∨
      (∃ g0 src n c, (∀ b ∈ src, b < 256) ∧ readGuano src n = Except.ok g0 ∧
        c.length < 2 ^ 32 ∧ g = updateContents g0 c))
    (hav : g.size ≤ availableBytes) :
    readGuano (writeGuano buffer g) availableBytes = Except.ok g ∧
    g.size = g.guan.size + 8 := by
  have hwf : wellFormed g := by
    rcases horigin with ⟨src, n, hoct, hread⟩ | ⟨g0, src, n, c, hoct, hread, hc, hupd⟩
    · exact readGuano_wellFormed src n g hoct hread
    · rw [hupd]
      exact updateContents_wellFormed g0 c (readGuano_wellFormed src n g0 hoct hread) hc
  refine ⟨writeGuano_readGuano g buffer availableBytes hwf hav, ?_⟩
  obtain ⟨-, -, -, hsize, -⟩ := hwf
  omega

/-- Concrete guano used by the C10 witness: read from the 10-byte buffer
`guan` + size 2 + body "AB". -/
def gW : GuanoData :=
  { guan := { id := guanId, size := 2 }, contents := [65, 66], buffer := [65, 66], size := 10 }

/-- C10 witness: the round-trip theorem applied to a concrete guano read from
a 10-byte buffer and written into a 16-byte zero buffer. -/
theorem C10_guano_roundtrip_witness :
    readGuano (writeGuano (List.replicate 16 0) gW) 12 = Except.ok gW ∧
    gW.size = gW.guan.size + 8 :=
  C10_guano_roundtrip gW (List.replicate 16 0) 12
    (Or.inl ⟨guanId ++ [2, 0, 0, 0] ++ [65, 66], 10, by decide, by rfl⟩)
    (by decide)

end Guano

namespace ErrorHandling

/-- Outcome of a call into the library as seen by the caller: either the
returned result object, an escaped exception, or control flowing on into the
body of the operation. -/
inductive JsOutcome
  | returned (success : Bool) (error : Option String)
  | threw (message : String)
  | proceeds
deriving DecidableEq, Repr

/-- Filesystem behaviour visible to the prologue of `split` (splitter.js
lines 201-229): whether `fs.openSync(inputPath)` succeeds, whether the output
path exists (`fs.lstatSync` throws ENOENT on a missing path), and whether it
is a directory. -/
structure FsState where
  inputOpens : Bool
  outputPathExists : Bool
  outputIsDirectory : Bool
deriving DecidableEq, Repr

/-- Embedding of the prologue of `split` (splitter.js lines 201-229), after
the pure argument and filename checks: `fs.openSync` is wrapped in try/catch
and failure becomes a returned error object, but `fs.lstatSync(outputPath)`
at line 222 runs outside every try/catch, so a missing output path raises an
exception that escapes the library.  The same unguarded call appears at
downsampler.js line 146, expander.js line 337 and aligner.js line 1101. -/
def splitPrologue (fsx : FsState) : JsOutcome :=
  if fsx.inputOpens = false then
    JsOutcome.returned false (some "Could not open input file.")
  else if fsx.outputPathExists = false then
    JsOutcome.threw "ENOENT: no such file or directory, lstat"
  else if fsx.outputIsDirectory = false then
    JsOutcome.returned false (some "Destination path is not a directory.")
  else
    JsOutcome.proceeds

/-- C7: evaluating `split` at the failing input — the input file opens but
the output directory does not exist — the ENOENT exception of the unguarded
`fs.lstatSync(outputPath)` escapes the library boundary instead of being
turned into a `{success, error}` result, contradicting the stated policy;
the failure paths that are wrapped (such as an unopenable input) do return
result objects. -/
theorem C7_lstat_exception :
    splitPrologue ⟨true, false, true⟩ =
      JsOutcome.threw "ENOENT: no such file or directory, lstat" ∧
    splitPrologue ⟨false, true, true⟩ =
      JsOutcome.returned false (some "Could not open input file.") ∧
    splitPrologue ⟨true, true, false⟩ =
      JsOutcome.returned false (some "Destination path is not a directory.") := by
  refine ⟨rfl, rfl, rfl⟩

end ErrorHandling

namespace Aligner

/-- GPS fix committed by `align.initialise` (aligner.js lines 685-798):
UTC timestamp in milliseconds, clock offset in tenths of milliseconds and
sample rate in millihertz. -/
structure Fix where
  timestamp : Int
  timeOffset : Int
  sampleRate : Int
deriving DecidableEq, Repr, Inhabited

/-- Tag of the chosen sample-rate calculation (aligner.js lines 475-477). -/
inductive SampleRateCalculation
  | INTERPOLATION
  | MEDIAN
deriving DecidableEq, Repr

/-- Clock and sample-rate plan derived by `align` before streaming. -/
structure AlignPlan where
  timeOffset : Int
  sampleRateStart : Int
  sampleRateEnd : Int
  sampleRateCalculation : SampleRateCalculation
deriving DecidableEq, Repr

/-- Outcome of the plan-construction part of `align`. -/
inductive AlignOutcome
  | failure (error : String)
  | proceed (plan : AlignPlan)
deriving DecidableEq, Repr

/-- JavaScript `Math.round`: half-values round towards positive infinity. -/
def jsRound (q : ℚ) : Int :=
  ⌊q + 1 / 2⌋

/-- Threshold of the WAV-file sample-rate check (aligner.js line 543):
`100 * MILLIHERTZ_IN_HERTZ`, i.e. 100 Hz expressed in millihertz. -/
def MAXIMUM_SAMPLE_RATE_ERROR_FROM_WAV_FILE : Int := 100 * 1000

/-- Index search of `align` (aligner.js line 1378): number of leading fixes
whose timestamp is strictly below the recording timestamp. -/
def findFixIndex (fixes : List Fix) (timestamp : Int) : Nat :=
  match fixes with
  | [] => 0
  | f :: rest => if timestamp > f.timestamp then 1 + findFixIndex rest timestamp else 0

/-- Extrapolation branch of `align` past the last fix (aligner.js lines
1332-1370): derive the clock offset from the last two fixes and take the
last fix's rate, or the median when the last fix diverges from the median by
more than `400/48e6` of it; the second component is the resulting
`sampleRateError` in millihertz.  Rationals stand for the 64-bit floats of
the source. -/
def alignExtrapolate (fixes : List Fix) (medianSampleRate timestamp : Int)
    (sampleRate : Int) : AlignPlan × Int :=
  let lastFix := fixes.getD (fixes.length - 1) default
  let clockDrift : ℚ := (lastFix.timeOffset : ℚ) /
    ((lastFix.timestamp : ℚ) - ((fixes.getD (fixes.length - 2) default).timestamp : ℚ))
  let timeOffset := jsRound (clockDrift * ((timestamp : ℚ) - (lastFix.timestamp : ℚ)))
  if (|lastFix.sampleRate - medianSampleRate| : ℚ) >
      400 / 48000000 * (medianSampleRate : ℚ) then
    (⟨timeOffset, medianSampleRate, medianSampleRate, SampleRateCalculation.MEDIAN⟩,
      |medianSampleRate - sampleRate * 1000|)
  else
    (⟨timeOffset, lastFix.sampleRate, lastFix.sampleRate, SampleRateCalculation.INTERPOLATION⟩,
      |lastFix.sampleRate - sampleRate * 1000|)

/-- Interpolation branch of `align` between bracketing fixes (aligner.js
lines 1372-1445): clock offset by linear drift, rate endpoints by linear
interpolation at the start and end of the recording, with the median
fallback when either bracketing fix diverges from the median by more than
`400/48e6` of it. -/
def alignInterpolate (fixes : List Fix) (medianSampleRate timestamp : Int)
    (duration : ℚ) (sampleRate : Int) : AlignPlan × Int :=
  let fixAfter := fixes.getD (findFixIndex fixes timestamp) default
  let fixBefore := fixes.getD (findFixIndex fixes timestamp - 1) default
  let clockDrift : ℚ := (fixAfter.timeOffset : ℚ) /
    ((fixAfter.timestamp : ℚ) - (fixBefore.timestamp : ℚ))
  let timeOffset := jsRound (clockDrift * ((timestamp : ℚ) - (fixBefore.timestamp : ℚ)))
  if (max |fixBefore.sampleRate - medianSampleRate| |fixAfter.sampleRate - medianSampleRate| : ℚ) >
      400 / 48000000 * (medianSampleRate : ℚ) then
    (⟨timeOffset, medianSampleRate, medianSampleRate, SampleRateCalculation.MEDIAN⟩,
      |medianSampleRate - sampleRate * 1000|)
  else
    let sampleRateDrift : ℚ := ((fixAfter.sampleRate : ℚ) - (fixBefore.sampleRate : ℚ)) /
      ((fixAfter.timestamp : ℚ) - (fixBefore.timestamp : ℚ))
    let sampleRateStart := jsRound ((fixBefore.sampleRate : ℚ) +
      sampleRateDrift * ((timestamp : ℚ) - (fixBefore.timestamp : ℚ)))
    let sampleRateEnd := jsRound ((fixBefore.sampleRate : ℚ) +
      sampleRateDrift * ((timestamp : ℚ) + duration * 1000 - (fixBefore.timestamp : ℚ)))
    (⟨timeOffset, sampleRateStart, sampleRateEnd, SampleRateCalculation.INTERPOLATION⟩,
      max |sampleRateStart - sampleRate * 1000| |sampleRateEnd - sampleRate * 1000|)

/-- Embedding of the plan construction of `align` (aligner.js lines
1298-1445): position the recording relative to the fixes, then derive the
plan and the `sampleRateError` with the matching branch. -/
def alignParams (fixes : List Fix) (medianSampleRate timestamp : Int)
    (duration : ℚ) (sampleRate : Int) (onlyProcessFilesBetweenFixes : Bool) :
    Except String (AlignPlan × Int) :=
  if timestamp < (fixes.getD 0 default).timestamp then
    Except.error "Recording is before first GPS fix. No correction possible."
  else if timestamp > (fixes.getD (fixes.length - 1) default).timestamp then
    if onlyProcessFilesBetweenFixes then
      Except.error "Recording is after last GPS fix."
    else
      Except.ok (alignExtrapolate fixes medianSampleRate timestamp sampleRate)
  else
    if timestamp = (fixes.getD (findFixIndex fixes timestamp - 1) default).timestamp ∨
        timestamp = (fixes.getD (findFixIndex fixes timestamp) default).timestamp then
      Except.error "Recording has the same time as a GPS fix."
    else
      Except.ok (alignInterpolate fixes medianSampleRate timestamp duration sampleRate)

/-- Embedding of the final sample-rate check and rejection of `align`
(aligner.js lines 1447-1456): reject exactly when the computed
`sampleRateError` exceeds `MAXIMUM_SAMPLE_RATE_ERROR_FROM_WAV_FILE`; on
rejection `align` returns before any output file is created. -/
def alignDecision (fixes : List Fix) (medianSampleRate timestamp : Int)
    (duration : ℚ) (sampleRate : Int) (onlyProcessFilesBetweenFixes : Bool) :
    AlignOutcome :=
  match alignParams fixes medianSampleRate timestamp duration sampleRate
    onlyProcessFilesBetweenFixes with
  | Except.error e => AlignOutcome.failure e
  | Except.ok (plan, sampleRateError) =>
    if sampleRateError > MAXIMUM_SAMPLE_RATE_ERROR_FROM_WAV_FILE then
      AlignOutcome.failure "Sample rate does not match expected sample rate."
    else
      AlignOutcome.proceed plan

/-- Two drift-free fixes ten minutes apart at 48 kHz used by the C8
counterexample. -/
def fixA : Fix := ⟨0, 0, 48000000⟩

/-- Second fix of the C8 counterexample. -/
def fixB : Fix := ⟨600000, 0, 48000000⟩

theorem C8_params_eval :
    alignParams [fixA, fixB] 48000000 300000 1 48020 true =
      Except.ok (⟨0, 48000000, 48000000, SampleRateCalculation.INTERPOLATION⟩, 20000) := by
  have hidx : findFixIndex [fixA, fixB] 300000 = 1 := by
    simp [findFixIndex, fixA, fixB]
  rw [alignParams]
  rw [if_neg (by simp [fixA]), if_neg (by simp [fixB])]
  rw [if_neg (by rw [hidx]; simp [fixA, fixB])]
  rw [alignInterpolate, hidx]
  simp only [fixA, fixB, List.getD_cons_zero, List.getD_cons_succ]
  norm_num [jsRound]

/-- C8 counterexample: a recording bracketed by 48 kHz fixes whose WAV header
claims 48020 Hz.  The derived (interpolated) rate deviates from the header
rate by 20000 mHz — far more than 100 mHz — yet `align` proceeds to stream
the output, because the code threshold is 100 Hz (100000 mHz). -/
theorem C8_counterexample :
    alignDecision [fixA, fixB] 48000000 300000 1 48020 true =
      AlignOutcome.proceed ⟨0, 48000000, 48000000, SampleRateCalculation.INTERPOLATION⟩ ∧
    alignParams [fixA, fixB] 48000000 300000 1 48020 true =
      Except.ok (⟨0, 48000000, 48000000, SampleRateCalculation.INTERPOLATION⟩, 20000) ∧
    (100 : Int) < 20000 := by
  refine ⟨?_, C8_params_eval, by decide⟩
  rw [alignDecision, C8_params_eval]
  show (if (20000 : Int) > MAXIMUM_SAMPLE_RATE_ERROR_FROM_WAV_FILE then
      AlignOutcome.failure "Sample rate does not match expected sample rate."
    else AlignOutcome.proceed
      ⟨0, 48000000, 48000000, SampleRateCalculation.INTERPOLATION⟩) = _
  rw [if_neg (by decide)]

/-- C8 (amended): whenever the plan construction of `align` completes with a
derived plan and `sampleRateError` (the deviation of the interpolated,
extrapolated or median-fallback rate from the WAV header rate, in mHz),
`align` rejects with the sample-rate mismatch error — writing no output — if
and only if that deviation exceeds `MAXIMUM_SAMPLE_RATE_ERROR_FROM_WAV_FILE`
= 100 Hz (100000 mHz, not 100 mHz); otherwise it proceeds to stream the
corrected output with exactly that plan. -/
theorem C8_sample_rate_check (fixes : List Fix) (medianSampleRate timestamp : Int)
    (duration : ℚ) (sampleRate : Int) (onlyBetween : Bool) (plan : AlignPlan) (err : Int)
    (h : alignParams fixes medianSampleRate timestamp duration sampleRate onlyBetween =
      Except.ok (plan, err)) :
    (alignDecision fixes medianSampleRate timestamp duration sampleRate onlyBetween =
        AlignOutcome.failure "Sample rate does not match expected sample rate." ↔
      MAXIMUM_SAMPLE_RATE_ERROR_FROM_WAV_FILE < err) ∧
    (alignDecision fixes medianSampleRate timestamp duration sampleRate onlyBetween =
        AlignOutcome.proceed plan ↔ err ≤ MAXIMUM_SAMPLE_RATE_ERROR_FROM_WAV_FILE) ∧
    MAXIMUM_SAMPLE_RATE_ERROR_FROM_WAV_FILE = 100 * 1000 := by
  have hd : alignDecision fixes medianSampleRate timestamp duration sampleRate onlyBetween =
      if err > MAXIMUM_SAMPLE_RATE_ERROR_FROM_WAV_FILE then
        AlignOutcome.failure "Sample rate does not match expected sample rate."
      else AlignOutcome.proceed plan := by
    rw [alignDecision, h]
  rw [hd]
  by_cases hc : err > MAXIMUM_SAMPLE_RATE_ERROR_FROM_WAV_FILE
  · rw [if_pos hc]
    refine ⟨⟨fun _ => hc, fun _ => rfl⟩, ⟨fun hcontra => ?_, fun hle => ?_⟩, rfl⟩
    · cases hcontra
    · exact absurd hc (by omega)
  · rw [if_neg hc]
    refine ⟨⟨fun hcontra => ?_, fun hgt => absurd hgt hc⟩,
      ⟨fun _ => by omega, fun _ => rfl⟩, rfl⟩
    cases hcontra

/-- C8 witness: the amended check theorem at the counterexample input (a
20 Hz deviation, below the 100 Hz threshold). -/
theorem C8_sample_rate_check_witness :
    (alignDecision [fixA, fixB] 48000000 300000 1 48020 true =
        AlignOutcome.failure "Sample rate does not match expected sample rate." ↔
      MAXIMUM_SAMPLE_RATE_ERROR_FROM_WAV_FILE < 20000) ∧
    (alignDecision [fixA, fixB] 48000000 300000 1 48020 true =
        AlignOutcome.proceed ⟨0, 48000000, 48000000, SampleRateCalculation.INTERPOLATION⟩ ↔
      20000 ≤ MAXIMUM_SAMPLE_RATE_ERROR_FROM_WAV_FILE) ∧
    MAXIMUM_SAMPLE_RATE_ERROR_FROM_WAV_FILE = 100 * 1000 :=
  C8_sample_rate_check [fixA, fixB] 48000000 300000 1 48020 true
    ⟨0, 48000000, 48000000, SampleRateCalculation.INTERPOLATION⟩ 20000 C8_params_eval

end Aligner

namespace Syncer

/-- Interval between two accepted PPS events (syncer.js lines 470-479); the
`sampleRate` field is written only by `calculateSampleRate` and is zero until
the first calculation pass.  Rationals stand for the 64-bit floats of the
source. -/
structure Interval where
  index : Nat
  numberOfSamples : Int
  startPPSIndex : Nat
  endPPSIndex : Nat
  timeInterval : Int
  cumulativeTimeInterval : Int
  firstSampleGap : ℚ
  lastSampleGap : ℚ
  sampleRate : ℚ
deriving DecidableEq, Repr, Inhabited

/-- Parsed CSV row of the sync planner: `TOTAL_SAMPLES`, the millisecond
timestamp `Date.parse(AUDIOMOTH_TIME)`, and `TIMER_COUNT`. -/
structure PPSRow where
  totalSamples : Int
  timeMs : Int
  timerCount : ℚ
deriving DecidableEq, Repr, Inhabited

/-- JavaScript `Math.round` on the planner's float quantities. -/
def jsRound (q : ℚ) : Int :=
  ⌊q + 1 / 2⌋

/-- Embedding of the oversample-rate computation (syncer.js line 382):
`2 ** Math.floor(Math.log2(384000 / sampleRate))`; for integer sample rates
`floor(log2(384000 / rate))` equals `Nat.log2` of the integer quotient. -/
def overSampleRate (sampleRate : Nat) : Nat :=
  2 ^ Nat.log2 (384000 / sampleRate)

/-- Embedding of `clockTicksToCompleteSample` (syncer.js line 386). -/
def clockTicksToCompleteSample (sampleRate : Nat) : Nat :=
  2 + 4 * (2 + overSampleRate sampleRate * (16 + 12))

/-- Sample interval in microseconds (syncer.js line 267). -/
def syncSampleInterval (sampleRate : Nat) : ℚ :=
  1000000 / (sampleRate : ℚ)

/-- Embedding of the `TIME_TO_NEXT_SAMPLE` computation (syncer.js lines
390-404). -/
def timeToNextSample (sampleRate : Nat) (timerCount : ℚ) : ℚ :=
  if timerCount ≤ (clockTicksToCompleteSample sampleRate : ℚ) then
    ((clockTicksToCompleteSample sampleRate : ℚ) - timerCount) / 48000000 * 1000000
  else
    (48000000 / (sampleRate : ℚ) + (clockTicksToCompleteSample sampleRate : ℚ) - timerCount) /
      48000000 * 1000000

/-- `TIME_TO_NEXT_SAMPLE[i]` for row `i`. -/
def ttnsOf (sampleRate : Nat) (rows : List PPSRow) (i : Nat) : ℚ :=
  timeToNextSample sampleRate ((rows.getD i default).timerCount)

/-- Embedding of `calculateSampleRate` (syncer.js lines 553-557). -/
def calculateSampleRate (interval : Interval) : Interval :=
  { interval with sampleRate :=
      ((interval.numberOfSamples : ℚ) - 1) * 1000000 /
        ((interval.timeInterval : ℚ) * 1000000 - interval.firstSampleGap -
          interval.lastSampleGap) }

/-- The invariant of the claim: a positive whole-second span and the
sample-rate identity of `calculateSampleRate`. -/
def rateInvariant (interval : Interval) : Prop :=
  1 ≤ interval.timeInterval ∧
  interval.sampleRate =
    ((interval.numberOfSamples : ℚ) - 1) * 1000000 /
      ((interval.timeInterval : ℚ) * 1000000 - interval.firstSampleGap -
        interval.lastSampleGap)

/-- Embedding of the interval-construction loop of `sync` (syncer.js lines
432-529) under `autoResolve = true` (with `autoResolve = false` any missed or
misaligned event aborts the whole run, so no interval survives at all): walk
consecutive rows, accept an interval when the rounded second count is
positive and both the LFXO time bound and the HFXO sample-count bound hold,
and accumulate the running average state.  The summary list is accumulated
in reverse and reversed at the end. -/
def mkIntervalsLoop (sampleRate : Nat) (rows : List PPSRow) :
    Nat → List PPSRow → Int → Int → Int → Nat → Int → Int → List Interval → List Interval
  | _, [], _, _, _, _, _, _, acc => acc.reverse
  | i, row :: rest, sampleRateTotal, sampleRateCount, cumulativeTimeInterval,
      currentIndex, currentSamples, currentDate, acc =>
    let samples := row.totalSamples - currentSamples
    let timeInterval := row.timeMs - currentDate
    let roundedTimeInterval := jsRound ((timeInterval : ℚ) / 1000)
    let targetSampleRate : ℚ :=
      if sampleRateCount = 0 then (sampleRate : ℚ)
      else (sampleRateTotal : ℚ) / (sampleRateCount : ℚ)
    let maximumAllowableTimeError : Int :=
      ⌈(100 : ℚ) / 1000000 * (roundedTimeInterval : ℚ) * 1000⌉
    let maximumAllowableSampleRateError : Int :=
      ⌈(if sampleRateCount = 0 then (100 : ℚ) / 1000000 else (40 : ℚ) / 1000000) *
        (if sampleRateCount = 0 then (sampleRate : ℚ) else targetSampleRate) *
        (roundedTimeInterval : ℚ)⌉
    if roundedTimeInterval > 0 ∧
        |(timeInterval : ℚ) - (roundedTimeInterval : ℚ) * 1000| ≤
          (maximumAllowableTimeError : ℚ) ∧
        |(samples : ℚ) - (roundedTimeInterval : ℚ) * targetSampleRate| ≤
          (maximumAllowableSampleRateError : ℚ) then
      mkIntervalsLoop sampleRate rows (i + 1) rest (sampleRateTotal + samples)
        (sampleRateCount + roundedTimeInterval)
        (cumulativeTimeInterval + roundedTimeInterval) i row.totalSamples row.timeMs
        ({ index := acc.length, numberOfSamples := samples, startPPSIndex := currentIndex,
           endPPSIndex := i, timeInterval := roundedTimeInterval,
           cumulativeTimeInterval := cumulativeTimeInterval,
           firstSampleGap := ttnsOf sampleRate rows currentIndex,
           lastSampleGap := syncSampleInterval sampleRate - ttnsOf sampleRate rows i,
           sampleRate := 0 } :: acc)
    else
      mkIntervalsLoop sampleRate rows (i + 1) rest sampleRateTotal sampleRateCount
        cumulativeTimeInterval currentIndex currentSamples currentDate acc

/-- Interval construction of `sync` from the parsed CSV rows. -/
def mkIntervals (sampleRate : Nat) (rows : List PPSRow) : List Interval :=
  match rows with
  | [] => []
  | row0 :: rest =>
    mkIntervalsLoop sampleRate rows 1 rest 0 0 0 0 row0.totalSamples row0.timeMs []

/-- Average sample rate over the constructed intervals (syncer.js lines
569-581). -/
def averageSampleRate (intervals : List Interval) : ℚ :=
  (((intervals.map fun iv => iv.numberOfSamples).sum : Int) : ℚ) /
    (((intervals.map fun iv => iv.timeInterval).sum : Int) : ℚ)

/-- Intervals with their initial sample rates (syncer.js lines 561-565). -/
def initialIntervals (sampleRate : Nat) (rows : List PPSRow) : List Interval :=
  (mkIntervals sampleRate rows).map calculateSampleRate

/-- `MAXIMUM_ALLOWABLE_PPS_OFFSET` (syncer.js lines 70-72):
`(2 + CLOCK_DIVIDER) / CLOCK_FREQUENCY * MICROSECONDS_IN_SECOND`. -/
def MAXIMUM_ALLOWABLE_PPS_OFFSET : ℚ :=
  (2 + 4) / 48000000 * 1000000

/-- One step of the first PPS fix-up loop (syncer.js lines 659-681): when a
sample lands just before the PPS edge and the adjacent rounded rates are one
low then one high, move the sample to the next interval and recompute both
rates. -/
def fix1Step (sampleInterval avg : ℚ) (l : List Interval) (i : Nat) : List Interval :=
  let interval := l.getD i default
  let nextInterval := l.getD (i + 1) default
  if interval.lastSampleGap < MAXIMUM_ALLOWABLE_PPS_OFFSET ∧
      jsRound (interval.sampleRate - avg) = -1 ∧
      jsRound (nextInterval.sampleRate - avg) = 1 then
    (l.set i (calculateSampleRate { interval with lastSampleGap := sampleInterval })).set (i + 1)
      (calculateSampleRate { nextInterval with firstSampleGap := 0 })
  else l

/-- First-interval overshoot fix at 192 kHz (syncer.js lines 685-699). -/
def fix2 (sampleInterval avg : ℚ) (l : List Interval) : List Interval :=
  let interval := l.getD 0 default
  if jsRound (interval.sampleRate - avg) = 1 then
    l.set 0 (calculateSampleRate
      { interval with firstSampleGap := interval.firstSampleGap - sampleInterval })
  else l

/-- One step of the 192 kHz `(-1, 0)` fix-up loop (syncer.js lines
703-725): move the sample and admit the missed one. -/
def fix3Step (sampleInterval avg : ℚ) (l : List Interval) (i : Nat) : List Interval :=
  let interval := l.getD i default
  let nextInterval := l.getD (i + 1) default
  if interval.lastSampleGap < MAXIMUM_ALLOWABLE_PPS_OFFSET ∧
      jsRound (interval.sampleRate - avg) = -1 ∧
      jsRound (nextInterval.sampleRate - avg) = 0 then
    (l.set i (calculateSampleRate { interval with lastSampleGap := sampleInterval })).set (i + 1)
      (calculateSampleRate { nextInterval with firstSampleGap := sampleInterval })
  else l

/-- One step of the 192 kHz missing-sample fix-up loop (syncer.js lines
727-743). -/
def fix4Step (sampleInterval avg : ℚ) (l : List Interval) (i : Nat) : List Interval :=
  let interval := l.getD i default
  if jsRound (interval.sampleRate - avg) = -1 then
    l.set i (calculateSampleRate
      { interval with firstSampleGap := interval.firstSampleGap + sampleInterval })
  else l

/-- The complete PPS fix-up stage (syncer.js lines 657-747,
`FIX_PPS_EVENTS = true`): the adjacent-pair loop, then — only at the maximum
allowable 192 kHz — the first-interval fix, the `(-1, 0)` loop and the
missing-sample loop. -/
def fixPPSEvents (wavSampleRate : Nat) (sampleInterval avg : ℚ)
    (l : List Interval) : List Interval :=
  let l1 := (List.range (l.length - 1)).foldl (fix1Step sampleInterval avg) l
  if wavSampleRate = 192000 then
    let l2 := fix2 sampleInterval avg l1
    let l3 := (List.range (l2.length - 1)).foldl (fix3Step sampleInterval avg) l2
    (List.range l3.length).foldl (fix4Step sampleInterval avg) l3
  else l1

/-- PPS-fixed intervals of `sync`. -/
def fixedIntervals (sampleRate : Nat) (rows : List PPSRow) : List Interval :=
  fixPPSEvents sampleRate (syncSampleInterval sampleRate)
    (averageSampleRate (initialIntervals sampleRate rows))
    (initialIntervals sampleRate rows)

/-- Half acquisition/conversion shift of the sample-time alignment pass
(syncer.js lines 791-795). -/
def alignTimeOffset (sampleRate : Nat) : ℚ :=
  1000000 * (((1 + 4 * (12 + 1) : Nat) : ℚ) +
    ((clockTicksToCompleteSample sampleRate : ℚ) - 1 - 4)) / 2 / 48000000

/-- One step of the sample-time alignment pass (syncer.js lines 797-825):
shift both gaps by the half-period offset; when the first gap turns negative
transfer one sample, either flagging the first interval or rebalancing with
the previous interval.  Sample rates are not recomputed here — that happens
in the recalculation pass that closes the stage. -/
def alignStep (sampleInterval timeOffset : ℚ) (l : List Interval) (i : Nat) : List Interval :=
  let interval0 := l.getD i default
  let interval1 := { interval0 with
    firstSampleGap := interval0.firstSampleGap - timeOffset,
    lastSampleGap := interval0.lastSampleGap + timeOffset }
  if interval1.firstSampleGap < 0 then
    let interval2 := { interval1 with
      numberOfSamples := interval1.numberOfSamples - 1,
      firstSampleGap := interval1.firstSampleGap + sampleInterval }
    if i = 0 then l.set i interval2
    else
      let previous := l.getD (i - 1) default
      (l.set i interval2).set (i - 1) { previous with
        numberOfSamples := previous.numberOfSamples + 1,
        lastSampleGap := sampleInterval - interval2.firstSampleGap }
  else l.set i interval1

/-- The sample-time alignment pass (syncer.js lines 789-827,
`ALIGN_SAMPLES = true`). -/
def alignSamples (sampleInterval timeOffset : ℚ) (l : List Interval) : List Interval :=
  (List.range l.length).foldl (alignStep sampleInterval timeOffset) l

/-- Recalculation pass closing the alignment stage (syncer.js lines
829-837). -/
def recalculateSampleRates (l : List Interval) : List Interval :=
  l.map calculateSampleRate

/-- Intervals after the sample-time alignment pass and its closing
recalculation. -/
def alignedIntervals (sampleRate : Nat) (rows : List PPSRow) : List Interval :=
  recalculateSampleRates (alignSamples (syncSampleInterval sampleRate)
    (alignTimeOffset sampleRate) (fixedIntervals sampleRate rows))

end Syncer

namespace Syncer

theorem calculateSampleRate_invariant (interval : Interval)
    (h : 1 ≤ interval.timeInterval) :
    rateInvariant (calculateSampleRate interval) :=
  ⟨h, rfl⟩

theorem mem_set_cases (l : List Interval) (i : Nat) (x y : Interval)
    (hy : y ∈ l.set i x) : y ∈ l ∨ (y = x ∧ i < l.length) := by
  by_cases hi : i < l.length
  · rcases List.mem_or_eq_of_mem_set hy with h | h
    · exact Or.inl h
    · exact Or.inr ⟨h, hi⟩
  · left
    rwa [List.set_eq_of_length_le (by omega)] at hy

theorem getD_mem_of_lt (l : List Interval) (i : Nat) (h : i < l.length) :
    l.getD i default ∈ l := by
  rw [List.getD_eq_getElem l default h]
  exact List.getElem_mem h

theorem fix1Step_invariant (sampleInterval avg : ℚ) (l : List Interval) (i : Nat)
    (hl : ∀ iv ∈ l, rateInvariant iv) :
    ∀ iv ∈ fix1Step sampleInterval avg l i, rateInvariant iv := by
  intro iv hiv
  simp only [fix1Step] at hiv
  split at hiv
  · rcases mem_set_cases _ _ _ _ hiv with h1 | ⟨rfl, hlen⟩
    · rcases mem_set_cases _ _ _ _ h1 with h2 | ⟨rfl, hlen⟩
      · exact hl iv h2
      · exact calculateSampleRate_invariant _ (hl _ (getD_mem_of_lt l i hlen)).1
    · have hlen2 : i + 1 < l.length := by simpa using hlen
      exact calculateSampleRate_invariant _ (hl _ (getD_mem_of_lt l (i + 1) hlen2)).1
  · exact hl iv hiv

theorem fix2_invariant (sampleInterval avg : ℚ) (l : List Interval)
    (hl : ∀ iv ∈ l, rateInvariant iv) :
    ∀ iv ∈ fix2 sampleInterval avg l, rateInvariant iv := by
  intro iv hiv
  simp only [fix2] at hiv
  split at hiv
  · rcases mem_set_cases _ _ _ _ hiv with h1 | ⟨rfl, hlen⟩
    · exact hl iv h1
    · exact calculateSampleRate_invariant _ (hl _ (getD_mem_of_lt l 0 hlen)).1
  · exact hl iv hiv

theorem fix3Step_invariant (sampleInterval avg : ℚ) (l : List Interval) (i : Nat)
    (hl : ∀ iv ∈ l, rateInvariant iv) :
    ∀ iv ∈ fix3Step sampleInterval avg l i, rateInvariant iv := by
  intro iv hiv
  simp only [fix3Step] at hiv
  split at hiv
  · rcases mem_set_cases _ _ _ _ hiv with h1 | ⟨rfl, hlen⟩
    · rcases mem_set_cases _ _ _ _ h1 with h2 | ⟨rfl, hlen⟩
      · exact hl iv h2
      · exact calculateSampleRate_invariant _ (hl _ (getD_mem_of_lt l i hlen)).1
    · have hlen2 : i + 1 < l.length := by simpa using hlen
      exact calculateSampleRate_invariant _ (hl _ (getD_mem_of_lt l (i + 1) hlen2)).1
  · exact hl iv hiv

theorem fix4Step_invariant (sampleInterval avg : ℚ) (l : List Interval) (i : Nat)
    (hl : ∀ iv ∈ l, rateInvariant iv) :
    ∀ iv ∈ fix4Step sampleInterval avg l i, rateInvariant iv := by
  intro iv hiv
  simp only [fix4Step] at hiv
  split at hiv
  · rcases mem_set_cases _ _ _ _ hiv with h1 | ⟨rfl, hlen⟩
    · exact hl iv h1
    · exact calculateSampleRate_invariant _ (hl _ (getD_mem_of_lt l i hlen)).1
  · exact hl iv hiv

theorem foldl_invariant {P : List Interval → Prop}
    (f : List Interval → Nat → List Interval)
    (hf : ∀ l i, P l → P (f l i)) :
    ∀ (idxs : List Nat) (l : List Interval), P l → P (idxs.foldl f l) := by
  intro idxs
  induction idxs with
  | nil => intro l h; exact h
  | cons i is ih => intro l h; exact ih (f l i) (hf l i h)

/-- Positivity of every interval's whole-second span. -/
def allTimeIntervalsPositive (l : List Interval) : Prop :=
  ∀ iv ∈ l, 1 ≤ iv.timeInterval

theorem ite_prop_cases {α : Type} {P : α → Prop} (c : Prop) [Decidable c] (A B : α)
    (hA : c → P A) (hB : ¬ c → P B) : P (if c then A else B) := by
  by_cases h : c
  · rw [if_pos h]
    exact hA h
  · rw [if_neg h]
    exact hB h

theorem mkIntervalsLoop_timeIntervals (sampleRate : Nat) (rows : List PPSRow) :
    ∀ (rest : List PPSRow) (i : Nat) (sampleRateTotal sampleRateCount cumulative : Int)
      (currentIndex : Nat) (currentSamples currentDate : Int) (acc : List Interval),
      allTimeIntervalsPositive acc →
      allTimeIntervalsPositive (mkIntervalsLoop sampleRate rows i rest sampleRateTotal
        sampleRateCount cumulative currentIndex currentSamples currentDate acc) := by
  intro rest
  induction rest with
  | nil =>
    intro i srt src cum cIdx cs cd acc hacc iv hiv
    rw [mkIntervalsLoop] at hiv
    rw [List.mem_reverse] at hiv
    exact hacc iv hiv
  | cons row rest ih =>
    intro i srt src cum cIdx cs cd acc hacc
    simp only [mkIntervalsLoop]
    refine ite_prop_cases _ _ _ (fun hcond => ?_) (fun _ => ih _ _ _ _ _ _ _ _ hacc)
    apply ih
    intro iv hiv
    rcases List.mem_cons.mp hiv with rfl | h
    · have hpos : (0 : Int) < jsRound (((row.timeMs - cd : Int) : ℚ) / 1000) := hcond.1
      simp only
      omega
    · exact hacc iv h

theorem mkIntervals_timeIntervals (sampleRate : Nat) (rows : List PPSRow) :
    allTimeIntervalsPositive (mkIntervals sampleRate rows) := by
  match rows with
  | [] => intro iv hiv; cases hiv
  | row0 :: rest =>
    exact mkIntervalsLoop_timeIntervals sampleRate (row0 :: rest) rest 1 0 0 0 0
      row0.totalSamples row0.timeMs [] (fun iv hiv => by cases hiv)

theorem initialIntervals_invariant (sampleRate : Nat) (rows : List PPSRow) :
    ∀ iv ∈ initialIntervals sampleRate rows, rateInvariant iv := by
  intro iv hiv
  rw [initialIntervals] at hiv
  obtain ⟨x, hx, rfl⟩ := List.mem_map.mp hiv
  exact calculateSampleRate_invariant x (mkIntervals_timeIntervals sampleRate rows x hx)

theorem fixPPSEvents_invariant (wavSampleRate : Nat) (sampleInterval avg : ℚ)
    (l : List Interval) (hl : ∀ iv ∈ l, rateInvariant iv) :
    ∀ iv ∈ fixPPSEvents wavSampleRate sampleInterval avg l, rateInvariant iv := by
  rw [fixPPSEvents]
  have h1 : ∀ iv ∈ (List.range (l.length - 1)).foldl (fix1Step sampleInterval avg) l,
      rateInvariant iv :=
    foldl_invariant (fix1Step sampleInterval avg)
      (fun l i h => fix1Step_invariant sampleInterval avg l i h) _ l hl
  by_cases hw : wavSampleRate = 192000
  · rw [if_pos hw]
    apply foldl_invariant (fix4Step sampleInterval avg)
      (fun l i h => fix4Step_invariant sampleInterval avg l i h)
    apply foldl_invariant (fix3Step sampleInterval avg)
      (fun l i h => fix3Step_invariant sampleInterval avg l i h)
    exact fix2_invariant sampleInterval avg _ h1
  · rw [if_neg hw]
    exact h1

theorem alignStep_timeIntervals (sampleInterval timeOffset : ℚ) (l : List Interval)
    (i : Nat) (hl : allTimeIntervalsPositive l) :
    allTimeIntervalsPositive (alignStep sampleInterval timeOffset l i) := by
  intro iv hiv
  simp only [alignStep] at hiv
  split at hiv
  · split at hiv
    · rcases mem_set_cases _ _ _ _ hiv with h1 | ⟨rfl, hlen⟩
      · exact hl iv h1
      · exact hl (l.getD i default) (getD_mem_of_lt l i hlen)
    · rcases mem_set_cases _ _ _ _ hiv with h1 | ⟨rfl, hlen⟩
      · rcases mem_set_cases _ _ _ _ h1 with h2 | ⟨rfl, hlen⟩
        · exact hl iv h2
        · exact hl (l.getD i default) (getD_mem_of_lt l i hlen)
      · have hlen2 : i - 1 < l.length := by simpa using hlen
        exact hl (l.getD (i - 1) default) (getD_mem_of_lt l (i - 1) hlen2)
  · rcases mem_set_cases _ _ _ _ hiv with h1 | ⟨rfl, hlen⟩
    · exact hl iv h1
    · exact hl (l.getD i default) (getD_mem_of_lt l i hlen)

theorem recalculate_invariant (l : List Interval) (hl : allTimeIntervalsPositive l) :
    ∀ iv ∈ recalculateSampleRates l, rateInvariant iv := by
  intro iv hiv
  rw [recalculateSampleRates] at hiv
  obtain ⟨x, hx, rfl⟩ := List.mem_map.mp hiv
  exact calculateSampleRate_invariant x (hl x hx)

theorem alignedIntervals_invariant (sampleRate : Nat) (rows : List PPSRow) :
    ∀ iv ∈ alignedIntervals sampleRate rows, rateInvariant iv := by
  rw [alignedIntervals]
  apply recalculate_invariant
  rw [alignSamples]
  apply foldl_invariant (alignStep (syncSampleInterval sampleRate) (alignTimeOffset sampleRate))
    (fun l i h => alignStep_timeIntervals _ _ l i h)
  intro iv hiv
  exact (fixPPSEvents_invariant sampleRate _ _ _ (initialIntervals_invariant sampleRate rows)
    iv hiv).1

/-- C6: in the sync plan construction, every accepted interval has
`timeInterval ≥ 1`, and the identity
`sampleRate = (numberOfSamples - 1) * 10^6 / (timeInterval * 10^6 -
firstSampleGap - lastSampleGap)` holds after the initial rate pass, is
preserved by every individual PPS fix-up correction (each rewrites the two
touched intervals with `calculateSampleRate`), holds after the whole fix-up
stage, and holds again after the sample-time alignment pass once its closing
recalculation has run. -/
theorem C6_interval_invariants (sampleRate : Nat) (rows : List PPSRow) :
    (∀ iv ∈ initialIntervals sampleRate rows, rateInvariant iv) ∧
    (∀ (sampleInterval avg : ℚ) (l : List Interval) (i : Nat),
      (∀ iv ∈ l, rateInvariant iv) →
      (∀ iv ∈ fix1Step sampleInterval avg l i, rateInvariant iv) ∧
      (∀ iv ∈ fix2 sampleInterval avg l, rateInvariant iv) ∧
      (∀ iv ∈ fix3Step sampleInterval avg l i, rateInvariant iv) ∧
      (∀ iv ∈ fix4Step sampleInterval avg l i, rateInvariant iv)) ∧
    (∀ iv ∈ fixedIntervals sampleRate rows, rateInvariant iv) ∧
    (∀ iv ∈ alignedIntervals sampleRate rows, rateInvariant iv) := by
  refine ⟨initialIntervals_invariant sampleRate rows, ?_, ?_, alignedIntervals_invariant sampleRate rows⟩
  · intro sampleInterval avg l i hl
    exact ⟨fix1Step_invariant sampleInterval avg l i hl,
      fix2_invariant sampleInterval avg l hl,
      fix3Step_invariant sampleInterval avg l i hl,
      fix4Step_invariant sampleInterval avg l i hl⟩
  · rw [fixedIntervals]
    exact fixPPSEvents_invariant sampleRate _ _ _ (initialIntervals_invariant sampleRate rows)

/-- Concrete two-row PPS log (one exact second, 48000 samples) used by the
C6 witness. -/
def rowsW : List PPSRow := [⟨0, 0, 0⟩, ⟨48000, 1000, 0⟩]

/-- C6 witness: the invariant theorem applied to the concrete log, with a
fix-up step premise discharged by the theorem's own initial-stage part. -/
theorem C6_interval_invariants_witness :
    (∀ iv ∈ initialIntervals 48000 rowsW, rateInvariant iv) ∧
    (∀ iv ∈ fix1Step 1 0 (initialIntervals 48000 rowsW) 0, rateInvariant iv) :=
  ⟨(C6_interval_invariants 48000 rowsW).1,
   ((C6_interval_invariants 48000 rowsW).2.1 1 0 (initialIntervals 48000 rowsW) 0
     (C6_interval_invariants 48000 rowsW).1).1⟩

end Syncer
